import Mathlib

set_option maxRecDepth 8000

/-!
Verification development for the Letterboxd mirror plugin's core engines:
the shared template engine (`src/template-engine.ts`), the Letterboxd
accessor tables (`src/notes/template.ts`), and the CSV merge / entry
matching logic (`src/notes/sync.ts`).

Strings are modelled as `List Char` (`Str`).  JavaScript regular-expression
behaviour is translated into explicit recursive scanners; where a scanner
consumes a computed suffix, it is implemented with an explicit fuel
argument (`fuel = length + 1` always suffices, since every step consumes at
least one character) so that every definition is executable by the kernel.
JS `\s` is modelled by the four ASCII whitespace characters, JS `.` and
multiline `^`/`$` line terminators by `'\n'` and `'\r'`.
-/

/-- Strings as character lists. -/
abbrev Str := List Char

/-- Convert a Lean string literal to the character-list representation. -/
def str (s : String) : Str := s.data

/-- JS whitespace class `\s` (restricted to its ASCII members). -/
def isWsChar (c : Char) : Bool := c = ' ' || c = '\t' || c = '\n' || c = '\r'

/-- JS line-terminator class (what `.` excludes and multiline `^`/`$` track). -/
def isTermChar (c : Char) : Bool := c = '\n' || c = '\r'

/-- JS word class `\w` = `[A-Za-z0-9_]`. -/
def isWordChar (c : Char) : Bool :=
  (('a' ≤ c && c ≤ 'z') || ('A' ≤ c && c ≤ 'Z') || ('0' ≤ c && c ≤ '9') || c = '_')

/-- Drop the longest suffix whose characters satisfy `p`. -/
def dropRightWhile (p : Char → Bool) (s : Str) : Str :=
  (s.reverse.dropWhile p).reverse

/-- JS `String.prototype.trim` (ASCII whitespace). -/
def jsTrim (s : Str) : Str := dropRightWhile isWsChar (s.dropWhile isWsChar)

/-- JS `String.prototype.toLowerCase` (ASCII). -/
def lowerStr (s : Str) : Str := s.map Char.toLower

/-- Split at the first occurrence of `pat`, returning the text before and
after it; `none` when `pat` does not occur. -/
def splitFirst (pat : Str) : Str → Option (Str × Str)
  | [] => if pat.isPrefixOf ([] : Str) then some ([], []) else none
  | c :: cs =>
    if pat.isPrefixOf (c :: cs) then some ([], (c :: cs).drop pat.length)
    else (splitFirst pat cs).map (fun p => (c :: p.1, p.2))

/-- JS `String.prototype.includes`. -/
def containsSub (pat s : Str) : Bool := (splitFirst pat s).isSome

/-- Join a list of strings with a separator (JS `Array.prototype.join`). -/
def joinSep (sep : Str) : List Str → Str
  | [] => []
  | [a] => a
  | a :: b :: rest => a ++ sep ++ joinSep sep (b :: rest)

/-- JS `String.prototype.split("\n")`. -/
def splitNl : Str → List Str
  | [] => [[]]
  | c :: cs =>
    if c = '\n' then [] :: splitNl cs
    else
      match splitNl cs with
      | [] => [[c]]
      | h :: t => (c :: h) :: t

/-- Inverse of `splitNl`: join lines with `'\n'`. -/
def joinNl : List Str → Str
  | [] => []
  | [a] => a
  | a :: b :: rest => a ++ '\n' :: joinNl (b :: rest)

/-- Decimal digits of a natural number. -/
def natStr (n : Nat) : Str := (Nat.repr n).data

/-- JS `parseInt(value, 10)`: skip whitespace, optional sign, leading digit
run; `none` models the `NaN` result. -/
def parseIntJs (s : Str) : Option Int :=
  let t := s.dropWhile isWsChar
  let core : Str → Option Nat := fun r =>
    let ds := r.takeWhile Char.isDigit
    if ds = [] then none
    else some (ds.foldl (fun a c => a * 10 + (c.toNat - '0'.toNat)) 0)
  match t with
  | '+' :: r => (core r).map Int.ofNat
  | '-' :: r => (core r).map (fun n => -(n : Int))
  | r => (core r).map Int.ofNat

/-- Rendering of a JS number.  The source relies on JS `String(value)`; the
plugin only ever renders integers and half-integral ratings, which this
function reproduces exactly (the final branch is never reached on those). -/
def jsRatToString (q : Rat) : Str :=
  (if q < 0 then ['-'] else []) ++
    (let a := q.num.natAbs
     if q.den = 1 then natStr a
     else if q.den = 2 then natStr (a / 2) ++ str ".5"
     else natStr a ++ ['/'] ++ natStr q.den)

-- ===========================================================================
-- Template engine (`src/template-engine.ts`)
-- ===========================================================================

/-- `RawValue`: string, number, boolean or string array. -/
inductive RawValue where
  | strV (s : Str)
  | numV (q : Rat)
  | boolV (b : Bool)
  | arrV (l : List Str)
  deriving DecidableEq

/-- Parsed template parameters (`TemplateParams`).  The `prefix`/`suffix`
fields are named `prefixStr`/`suffixStr` here; all JS use sites only test
them for truthiness, which for the absent/empty cases coincides with the
`[]` default. -/
structure TemplateParams where
  top : Option Int := none
  yaml : Bool := false
  bullet : Bool := false
  quoteB : Bool := false
  bold : Bool := false
  italic : Bool := false
  skipEmpty : Bool := false
  prefixStr : Str := []
  suffixStr : Str := []
  link : Bool := false
  linkActors : Bool := false
  linkCharacters : Bool := false
  deriving DecidableEq

/-- One parameter token `key="value"` or `key=value` (`PARAM_PATTERN`).
Returns the key, the value and the remaining input. -/
def ppTryMatch (s : Str) : Option (Str × Str × Str) :=
  let key := s.takeWhile isWordChar
  if key = [] then none
  else
    match s.drop key.length with
    | '=' :: r2 =>
      match r2 with
      | '"' :: r3 =>
        match splitFirst ['"'] r3 with
        | some (v, rest) => some (key, v, rest)
        | none =>
          -- no closing quote: the `\S+` alternative matches from the quote
          let v := r2.takeWhile (fun c => ¬ isWsChar c)
          some (key, v, r2.drop v.length)
      | _ =>
        let v := r2.takeWhile (fun c => ¬ isWsChar c)
        if v = [] then none else some (key, v, r2.drop v.length)
    | _ => none

/-- The `switch` in `parseParams`: assign one recognized key. -/
def applyParam (p : TemplateParams) (key value : Str) : TemplateParams :=
  if key = str "top" then { p with top := parseIntJs value }
  else if key = str "yaml" then { p with yaml := value = str "true" }
  else if key = str "bullet" then { p with bullet := value = str "true" }
  else if key = str "quote" then { p with quoteB := value = str "true" }
  else if key = str "bold" then { p with bold := value = str "true" }
  else if key = str "italic" then { p with italic := value = str "true" }
  else if key = str "skipEmpty" then { p with skipEmpty := value = str "true" }
  else if key = str "prefix" then { p with prefixStr := value }
  else if key = str "suffix" then { p with suffixStr := value }
  else if key = str "link" then { p with link := value = str "true" }
  else if key = str "linkActors" then { p with linkActors := value = str "true" }
  else if key = str "linkCharacters" then { p with linkCharacters := value = str "true" }
  else p

/-- Scanner loop of `parseParams` (fuel-based; one character of progress per
failed position, as for a JS global regex). -/
def ppFuel : Nat → TemplateParams → Str → TemplateParams
  | 0, p, _ => p
  | _ + 1, p, [] => p
  | n + 1, p, c :: cs =>
    match ppTryMatch (c :: cs) with
    | some (key, value, rest) => ppFuel n (applyParam p key value) rest
    | none => ppFuel n p cs

/-- `parseParams`. -/
def parseParams (s : Str) : TemplateParams := ppFuel (s.length + 1) {} s

/-- `isEmpty` on raw values. -/
def isEmptyRaw : RawValue → Bool
  | .arrV l => l.isEmpty
  | .strV s => s.isEmpty
  | .boolV _ => false
  | .numV _ => false

/-- `wikiLink`. -/
def wikiLink (s : Str) : Str := str "[[" ++ s ++ str "]]"

/-- `applyTextFormatting` (bold, then italic). -/
def applyTextFormatting (s : Str) (p : TemplateParams) : Str :=
  let r := if p.bold then str "**" ++ s ++ str "**" else s
  if p.italic then str "*" ++ r ++ str "*" else r

/-- Escape `"` as `\"` (the `replace(/"/g, '\\"')` steps). -/
def escapeQuotes (s : Str) : Str :=
  s.foldr (fun c acc => if c = '"' then '\\' :: '"' :: acc else c :: acc) []

/-- YAML double-quoted rendering of one string. -/
def yamlQuote (s : Str) : Str := '"' :: escapeQuotes s ++ ['"']

/-- `formatArray`. -/
def formatArray (arr : List Str) (p : TemplateParams) : Str :=
  let items := match p.top with
    | some n => if n > 0 then arr.take n.toNat else arr
    | none => arr
  let items := if p.link then items.map wikiLink else items
  if p.yaml then
    if p.bullet then joinSep ['\n'] (items.map (fun i => str "  - " ++ i))
    else '[' :: joinSep (str ", ") (items.map yamlQuote) ++ [']']
  else
    let items := if p.bold || p.italic then items.map (fun i => applyTextFormatting i p) else items
    if p.bullet then joinSep ['\n'] (items.map (fun i => str "- " ++ i))
    else joinSep (str ", ") items

/-- `formatString`. -/
def formatString (s : Str) (p : TemplateParams) : Str :=
  if p.yaml then yamlQuote s
  else
    let r := if p.bold then str "**" ++ s ++ str "**" else s
    let r := if p.italic then str "*" ++ r ++ str "*" else r
    let r := if p.quoteB then joinSep ['\n'] ((splitNl r).map (fun l => str "> " ++ l)) else r
    if p.link then wikiLink r else r

/-- `formatValue`. -/
def formatValue (v : RawValue) (p : TemplateParams) : Str :=
  if p.skipEmpty && isEmptyRaw v then []
  else
    let result := match v with
      | .arrV l => formatArray l p
      | .numV q => jsRatToString q
      | .boolV b => if b then str "true" else str "false"
      | .strV s => formatString s p
    if result ≠ [] ∨ ¬ p.skipEmpty then
      let result := if p.prefixStr ≠ [] then p.prefixStr ++ result else result
      if p.suffixStr ≠ [] then result ++ p.suffixStr else result
    else result

/-- `isTruthy` of the template engine (typed, whole-value). -/
def isTruthy : RawValue → Bool
  | .arrV l => l.length > 0
  | .numV q => q ≠ 0
  | .boolV b => b
  | .strV s => ¬ [str "", str "false", str "null", str "undefined"].contains (lowerStr s)

/-- `isTruthy` of the earlier string-only engine (`src/notes/template.ts`,
first variant), which additionally treats `"0"` as falsy. -/
def isTruthyV1 (s : Str) : Bool :=
  ¬ [str "", str "false", str "null", str "undefined", str "0"].contains (lowerStr s)

/-- Engine configuration: accessor table and special-handler table. -/
structure TemplateEngineConfig (T : Type) where
  accessors : String → Option (T → RawValue)
  specialHandlers : String → Option (T → TemplateParams → Str)

/-- Attempt `CONDITIONAL_PATTERN` = `\{\{#if\s+(\w+)\}\}([\s\S]*?)\{\{\/if\}\}`
at the start of `s`; returns (variable name, block content, rest). -/
def pcTryMatch (s : Str) : Option (Str × Str × Str) :=
  if (str "\x7b\x7b#if").isPrefixOf s then
    let r1 := s.drop 5
    let w := r1.takeWhile isWsChar
    if w = [] then none
    else
      let r2 := r1.drop w.length
      let name := r2.takeWhile isWordChar
      if name = [] then none
      else
        let r3 := r2.drop name.length
        if (str "\x7d\x7d").isPrefixOf r3 then
          match splitFirst (str "\x7b\x7b/if\x7d\x7d") (r3.drop 2) with
          | some (content, rest) => some (name, content, rest)
          | none => none
        else none
  else none

/-- The replacement decision of `processConditionals`: special handlers keep
the block, a known accessor keeps it iff the value is truthy, an unknown
name drops it. -/
def condKeep {T : Type} (cfg : TemplateEngineConfig T) (data : T) (name : Str) : Bool :=
  match cfg.specialHandlers (String.mk name) with
  | some _ => true
  | none =>
    match cfg.accessors (String.mk name) with
    | none => false
    | some a => isTruthy (a data)

/-- Scanner loop of `processConditionals` (kept block content is emitted
unprocessed; scanning resumes after the match, one character ahead on
failure — JS `String.prototype.replace` with a global regex). -/
def pcFuel {T : Type} (cfg : TemplateEngineConfig T) (data : T) : Nat → Str → Str
  | 0, _ => []
  | _ + 1, [] => []
  | n + 1, c :: cs =>
    match pcTryMatch (c :: cs) with
    | some (name, content, rest) =>
      (if condKeep cfg data name then content else []) ++ pcFuel cfg data n rest
    | none => c :: pcFuel cfg data n cs

/-- `processConditionals`. -/
def processConditionals {T : Type} (cfg : TemplateEngineConfig T) (t : Str) (data : T) : Str :=
  pcFuel cfg data (t.length + 1) t

/-- Attempt `VARIABLE_WITH_PARAMS_PATTERN` = `\{\{(\w+)(\s+[^}]+)?\}\}` at the
start of `s`; returns (name, raw parameter text, rest). -/
def svTryMatch (s : Str) : Option (Str × Str × Str) :=
  if (str "\x7b\x7b").isPrefixOf s then
    let r1 := s.drop 2
    let name := r1.takeWhile isWordChar
    if name = [] then none
    else
      let r2 := r1.drop name.length
      if (str "\x7d\x7d").isPrefixOf r2 then some (name, [], r2.drop 2)
      else
        let seg := r2.takeWhile (fun c => c ≠ '}')
        match seg with
        | [] => none
        | c0 :: rest0 =>
          -- the group `(\s+[^}]+)` needs a leading whitespace character and
          -- at least one further character before the closing braces
          if ¬ isWsChar c0 then none
          else if rest0 = [] then none
          else if (str "\x7d\x7d").isPrefixOf (r2.drop seg.length) then
            some (name, seg, r2.drop (seg.length + 2))
          else none
  else none

/-- Emission for one matched variable reference in `substituteVariables`. -/
def svEmit {T : Type} (cfg : TemplateEngineConfig T) (data : T) (name seg : Str) : Str :=
  let params := parseParams seg
  match cfg.specialHandlers (String.mk name) with
  | some h =>
    let result := h data params
    if params.skipEmpty && result.isEmpty then []
    else
      let r := if params.prefixStr ≠ [] then params.prefixStr ++ result else result
      if params.suffixStr ≠ [] then r ++ params.suffixStr else r
  | none =>
    match cfg.accessors (String.mk name) with
    | none => str "\x7b\x7b" ++ name ++ seg ++ str "\x7d\x7d"   -- unknown: leave match as-is
    | some a => formatValue (a data) params

/-- Scanner loop of `substituteVariables`. -/
def svFuel {T : Type} (cfg : TemplateEngineConfig T) (data : T) : Nat → Str → Str
  | 0, _ => []
  | _ + 1, [] => []
  | n + 1, c :: cs =>
    match svTryMatch (c :: cs) with
    | some (name, seg, rest) => svEmit cfg data name seg ++ svFuel cfg data n rest
    | none => c :: svFuel cfg data n cs

/-- `substituteVariables`. -/
def substituteVariables {T : Type} (cfg : TemplateEngineConfig T) (t : Str) (data : T) : Str :=
  svFuel cfg data (t.length + 1) t

/-- `render`: conditionals first, then variable substitution. -/
def engineRender {T : Type} (cfg : TemplateEngineConfig T) (t : Str) (data : T) : Str :=
  substituteVariables cfg (processConditionals cfg t data) data

/-- Forbidden filename characters `/ \ : * ? " < > |`. -/
def isForbiddenChar (c : Char) : Bool :=
  c = '/' || c = '\\' || c = ':' || c = '*' || c = '?' || c = '"' || c = '<' || c = '>' || c = '|'

/-- The sanitization tail of `generateFilename`: remove forbidden characters,
trim whitespace, strip leading/trailing dots. -/
def sanitizeFilename (s : Str) : Str :=
  dropRightWhile (fun c => c = '.') ((jsTrim (s.filter (fun c => ¬ isForbiddenChar c))).dropWhile (fun c => c = '.'))

/-- `generateFilename` of the engine. -/
def engineGenerateFilename {T : Type} (cfg : TemplateEngineConfig T) (t : Str) (data : T) : Str :=
  sanitizeFilename (substituteVariables cfg t data)

-- ===========================================================================
-- Letterboxd instantiation (`src/notes/template.ts`, engine variant)
-- ===========================================================================

/-- One Letterboxd diary entry (`LetterboxdEntry` in `src/types.ts`). -/
structure LetterboxdEntry where
  filmTitle : Str
  filmYear : Int
  userRatingNo : Option Rat
  userRatingStars : Str
  watchedDate : Str
  rewatch : Bool
  link : Str
  tmdbId : Str
  posterUrl : Str
  guid : Str
  review : Str
  pubDate : Str
  containsSpoilers : Bool
  tags : List Str
  deriving DecidableEq

/-- Sentinel for tags imported from RSS (`TAGS_PENDING_FROM_RSS`). -/
def TAGS_PENDING_FROM_RSS : Str := str "_pending_csv_import"

/-- `LETTERBOXD_ACCESSORS`. -/
def letterboxdAccessors (name : String) : Option (LetterboxdEntry → RawValue) :=
  if name = "filmTitle" then some (fun e => .strV e.filmTitle)
  else if name = "filmYear" then some (fun e => .numV (e.filmYear : Rat))
  else if name = "userRatingNoOver5" then
    some (fun e => match e.userRatingNo with | some r => .numV r | none => .strV [])
  else if name = "userRatingNoOver10" then
    some (fun e => match e.userRatingNo with | some r => .numV (r * 2) | none => .strV [])
  else if name = "userRatingStars" then some (fun e => .strV e.userRatingStars)
  else if name = "watchedDate" then some (fun e => .strV e.watchedDate)
  else if name = "watchedDatetime" then
    some (fun e => .strV (if e.watchedDate.isEmpty then [] else e.watchedDate ++ str "T00:00"))
  else if name = "rewatch" then some (fun e => .boolV e.rewatch)
  else if name = "link" then some (fun e => .strV e.link)
  else if name = "tmdbId" then some (fun e => .strV e.tmdbId)
  else if name = "posterUrl" then some (fun e => .strV e.posterUrl)
  else if name = "guid" then some (fun e => .strV e.guid)
  else if name = "review" then some (fun e => .strV e.review)
  else if name = "pubDate" then some (fun e => .strV e.pubDate)
  else if name = "containsSpoilers" then some (fun e => .boolV e.containsSpoilers)
  else if name = "tags" then some (fun e => .arrV e.tags)
  else none

/-- The Letterboxd engine (`createTemplateEngine({ accessors })`: no special
handlers). -/
def letterboxdEngine : TemplateEngineConfig LetterboxdEntry :=
  { accessors := letterboxdAccessors, specialHandlers := fun _ => none }

/-- `renderTemplate` for Letterboxd entries. -/
def renderTemplate (t : Str) (e : LetterboxdEntry) : Str := engineRender letterboxdEngine t e

/-- `generateFilename` for Letterboxd entries. -/
def generateFilename (t : Str) (e : LetterboxdEntry) : Str :=
  engineGenerateFilename letterboxdEngine t e

-- ===========================================================================
-- Record merge engine (`src/notes/sync.ts`)
-- ===========================================================================

/-- The slice of `LetterboxdSettings` consumed by the merge/match core. -/
structure LetterboxdSettings where
  folderPath : Str
  filenameTemplate : Str
  noteTemplate : Str
  deriving DecidableEq

/-- `DATE_VARIABLES`. -/
def DATE_VARIABLES : List Str := [str "watchedDate", str "watchedDatetime", str "pubDate"]

/-- `IMMUTABLE_VARIABLES`. -/
def IMMUTABLE_VARIABLES : List Str := [str "guid", str "tmdbId", str "posterUrl"]

/-- Characters stripped by `normalizeValue` (`["'[\]]`). -/
def isQbChar (c : Char) : Bool := c = '"' || c = Char.ofNat 39 || c = '[' || c = ']'

/-- `normalizeValue`: remove the maximal leading and trailing runs of
quote/bracket characters (the two alternatives of the anchored global
regex), then trim. -/
def normalizeValue (value : Str) : Str :=
  jsTrim (dropRightWhile isQbChar (value.dropWhile isQbChar))

/-- `isEmptyValue`. -/
def isEmptyValue (value : Str) : Bool :=
  let normalized := normalizeValue value
  normalized.isEmpty || normalized = str "" || normalized = str "[]" || normalized = str "\"\""

/-- `hasPendingSentinel`. -/
def hasPendingSentinel (existingValue : Str) : Bool :=
  containsSub TAGS_PENDING_FROM_RSS existingValue

/-- `shouldUpdateValue`. -/
def shouldUpdateValue (varName newValue existingValue : Str) : Bool :=
  if IMMUTABLE_VARIABLES.contains varName then false
  else if varName = str "tags" && containsSub TAGS_PENDING_FROM_RSS existingValue then true
  else if isEmptyValue newValue then false
  else
    let normalizedNew := normalizeValue newValue
    let normalizedExisting := normalizeValue existingValue
    if normalizedNew = normalizedExisting then false
    else if DATE_VARIABLES.contains varName then
      ¬ (normalizedNew.take 10 = normalizedExisting.take 10)
    else true

/-- The key of a template frontmatter line (`createFrontmatterLineRegex`:
text before the first `:`, trimmed; the line is guaranteed to contain a
colon by the caller's guard). -/
def lineKey (t : Str) : Str := jsTrim (t.takeWhile (fun c => c ≠ ':'))

/-- First match of the per-key line regex `^key:\s*(.*)$` (multiline) in
`fm`: scans character positions keeping a line-start flag (multiline `^`),
and at a match consumes `key:`, then the maximal whitespace run (`\s*`,
which crosses line breaks), then captures up to the next line terminator.
Returns `(text before the match, whitespace run, capture, text after)`. -/
def matchKeyAux (k : Str) (fm : Str) (atStart : Bool) : Option (Str × Str × Str × Str) :=
  if atStart && (k ++ [':']).isPrefixOf fm then
    let rest := fm.drop (k.length + 1)
    let w := rest.takeWhile isWsChar
    let u := rest.dropWhile isWsChar
    let cap := u.takeWhile (fun c => ¬ isTermChar c)
    let after := u.dropWhile (fun c => ¬ isTermChar c)
    some ([], w, cap, after)
  else
    match fm with
    | [] => none
    | c :: cs => (matchKeyAux k cs (isTermChar c)).map (fun r => (c :: r.1, r.2))

/-- First match of `^key:\s*(.*)$/m` in `fm`. -/
def matchKey (k fm : Str) : Option (Str × Str × Str × Str) := matchKeyAux k fm true

/-- First match of `\{\{(\w+)(?:\s+[^}]*)?\}\}` in a template line, giving
the variable name (the `varMatch` step of `updateNoteFrontmatter`). -/
def tvTryMatch (s : Str) : Option Str :=
  if (str "\x7b\x7b").isPrefixOf s then
    let r1 := s.drop 2
    let name := r1.takeWhile isWordChar
    if name = [] then none
    else
      let r2 := r1.drop name.length
      if (str "\x7d\x7d").isPrefixOf r2 then some name
      else
        let seg := r2.takeWhile (fun c => c ≠ '}')
        match seg with
        | [] => none
        | c0 :: _ =>
          if ¬ isWsChar c0 then none
          else if (str "\x7d\x7d").isPrefixOf (r2.drop seg.length) then some name
          else none
  else none

/-- Scanner for `tvTryMatch` over all positions. -/
def tvFuel : Nat → Str → Option Str
  | 0, _ => none
  | _ + 1, [] => none
  | n + 1, c :: cs =>
    match tvTryMatch (c :: cs) with
    | some name => some name
    | none => tvFuel n cs

/-- The variable name of a template frontmatter line, if any. -/
def findTemplateVarName (t : Str) : Option Str := tvFuel (t.length + 1) t

/-- The value part of a rendered line: text after the first `:`, trimmed
(`""` when there is no colon). -/
def newValueOf (nl : Str) : Str :=
  let pre := nl.takeWhile (fun c => c ≠ ':')
  if pre.length = nl.length then [] else jsTrim (nl.drop (pre.length + 1))

/-- JS replacement-string expansion for `String.prototype.replace` with one
capture group: `$$`, `$&`, `` $` ``, `$'` and `$1` are special; any other
`$` sequence is literal. -/
def expandRepl (repl before matched after cap : Str) : Str :=
  match repl with
  | [] => []
  | c :: r =>
    if c = '$' then
      match r with
      | [] => ['$']
      | d :: r2 =>
        if d = '$' then '$' :: expandRepl r2 before matched after cap
        else if d = '&' then matched ++ expandRepl r2 before matched after cap
        else if d = Char.ofNat 96 then before ++ expandRepl r2 before matched after cap
        else if d = Char.ofNat 39 then after ++ expandRepl r2 before matched after cap
        else if d = '1' then cap ++ expandRepl r2 before matched after cap
        else '$' :: d :: expandRepl r2 before matched after cap
    else c :: expandRepl r before matched after cap

/-- One iteration of the template-line loop of `updateNoteFrontmatter`:
given the current frontmatter text and one raw template line, either return
the frontmatter unchanged or patch the matched line. -/
def mergeLine (e : LetterboxdEntry) (fm : Str) (rawLine : Str) : Str :=
  let t := jsTrim rawLine
  if t.isEmpty then fm
  else if ¬ t.contains ':' then fm
  else
    match findTemplateVarName t with
    | none => fm
    | some varName =>
      let k := lineKey t
      match matchKey k fm with
      | none => fm
      | some (before, w, cap, after) =>
        let newLine := renderTemplate t e
        let newValue := newValueOf newLine
        if shouldUpdateValue varName newValue cap then
          before ++ expandRepl newLine before (k ++ ':' :: (w ++ cap)) after cap ++ after
        else fm

/-- The full template-line loop over the frontmatter. -/
def mergeFm (e : LetterboxdEntry) (tlines : List Str) (fm : Str) : Str :=
  tlines.foldl (mergeLine e) fm

/-- The frontmatter extraction regex match on `^---\n([\s\S]*?)\n---`:
requires the `---\n` prefix, then splits at the first `\n---`.  Returns the
frontmatter text and the remainder after the closing delimiter. -/
def fmSplit (content : Str) : Option (Str × Str) :=
  if (str "---\n").isPrefixOf content then splitFirst ('\n' :: str "---") (content.drop 4)
  else none

/-- `updateNoteFrontmatter`. -/
def updateNoteFrontmatter (content : Str) (e : LetterboxdEntry)
    (settings : LetterboxdSettings) : Str :=
  match fmSplit content with
  | none => content
  | some (fm, body) =>
    match fmSplit settings.noteTemplate with
    | none => content
    | some (tfm, _) =>
      str "---\n" ++ mergeFm e (splitNl tfm) fm ++ '\n' :: str "---" ++ body

-- ===========================================================================
-- Entry matcher (`findMatchingNote` and the CSV import orchestration)
-- ===========================================================================

/-- An existing note as the matcher sees it (`ExistingNote`): base filename,
extracted GUID, and full content. -/
structure ExistingNote where
  basename : Str
  guid : Option Str
  content : Str
  deriving DecidableEq

/-- `note.guid && note.guid === entry.guid` (an empty extracted GUID is
falsy in JS). -/
def guidMatches (entry : LetterboxdEntry) (note : ExistingNote) : Bool :=
  match note.guid with
  | some g => ¬ g.isEmpty && g = entry.guid
  | none => false

/-- Attempt `film:\s*"?\[\[([^\]]+)\]\]"?` at the start of `s`. -/
def tryFilmAt (s : Str) : Option Str :=
  if (str "film:").isPrefixOf s then
    let r := (s.drop 5).dropWhile isWsChar
    let r2 := match r with
      | '"' :: r' => r'
      | _ => r
    if (str "[[").isPrefixOf r2 then
      let inner := (r2.drop 2).takeWhile (fun c => c ≠ ']')
      if inner = [] then none
      else if (str "]]").isPrefixOf ((r2.drop 2).drop inner.length) then some inner
      else none
    else none
  else none

/-- First match of `/^film:\s*"?\[\[([^\]]+)\]\]"?/m` in a note's content. -/
def filmMatchAux (s : Str) (atStart : Bool) : Option Str :=
  match (if atStart then tryFilmAt s else none) with
  | some v => some v
  | none =>
    match s with
    | [] => none
    | c :: cs => filmMatchAux cs (isTermChar c)

/-- The `film:` frontmatter title of a note, if present. -/
def filmTitleOfContent (content : Str) : Option Str := filmMatchAux content true

/-- `.toLowerCase().trim().replace(/\s*\(\d{4}\)$/, "")`: strip a trailing
parenthesized four-digit year together with the whitespace before it. -/
def stripYearSuffix (t : Str) : Str :=
  match t.reverse with
  | ')' :: d1 :: d2 :: d3 :: d4 :: '(' :: rest =>
    if d1.isDigit && d2.isDigit && d3.isDigit && d4.isDigit then
      (rest.dropWhile isWsChar).reverse
    else t
  | _ => t

/-- Title normalization used by the filename-pattern rule. -/
def normalizeTitle (s : Str) : Str := stripYearSuffix (jsTrim (lowerStr s))

/-- Whether one existing note matches the entry (the loop body of
`findMatchingNote`): GUID match, or filename-pattern match confirmed by the
normalized `film:` title. -/
def noteMatches (entry : LetterboxdEntry) (expectedFilename : Str)
    (filenameTest : Str → Bool) (note : ExistingNote) : Bool :=
  if guidMatches entry note then true
  else if note.basename = expectedFilename || filenameTest note.basename then
    match filmTitleOfContent note.content with
    | some ft => normalizeTitle ft = normalizeTitle entry.filmTitle
    | none => false
  else false

/-- The thrown ambiguity message. -/
def ambiguousMessage (entry : LetterboxdEntry) (basenames : List Str) : Str :=
  str "Multiple matches for \"" ++ entry.filmTitle ++ str "\" (" ++ entry.watchedDate
    ++ str "): " ++ joinSep (str ", ") basenames

/-- `findMatchingNote`: accumulate all matches, then return `none` for zero
matches, the unique match for one, and fail with the ambiguity message for
more (the `RegExp` argument is modelled as a test predicate). -/
def findMatchingNote (entry : LetterboxdEntry) (existingNotes : List ExistingNote)
    (filenameTest : Str → Bool) (settings : LetterboxdSettings) :
    Except Str (Option ExistingNote) :=
  let expectedFilename := generateFilename settings.filenameTemplate entry
  let found := existingNotes.foldl
    (fun acc note =>
      if noteMatches entry expectedFilename filenameTest note then acc ++ [note] else acc) []
  if found.length = 0 then .ok none
  else if found.length > 1 then
    .error (ambiguousMessage entry (found.map (fun m => m.basename)))
  else .ok found.head?

/-- `validateCSVImport`: run the matcher over every entry, collecting every
thrown message. -/
def validateCSVImport (entries : List LetterboxdEntry) (existingNotes : List ExistingNote)
    (filenameTest : Str → Bool) (settings : LetterboxdSettings) : List Str :=
  entries.foldl
    (fun errors entry =>
      match findMatchingNote entry existingNotes filenameTest settings with
      | .error m => errors ++ [m]
      | .ok _ => errors) []

/-- Tokens of the wildcard regex built by `filenameTemplateToRegex`: literal
characters, or a `(.+)` group standing for a `{{...}}` placeholder. -/
inductive FTok where
  | lit (c : Char)
  | wild
  deriving DecidableEq

/-- Recognize one `\{\{[^}]+\}\}` placeholder at the start of `s`. -/
def ftTryWild (s : Str) : Option Str :=
  if (str "\x7b\x7b").isPrefixOf s then
    let seg := (s.drop 2).takeWhile (fun c => c ≠ '}')
    if seg = [] then none
    else if (str "\x7d\x7d").isPrefixOf ((s.drop 2).drop seg.length) then
      some ((s.drop 2).drop (seg.length + 2))
    else none
  else none

/-- Tokenize a filename template into literals and wildcards. -/
def ftToksFuel : Nat → Str → List FTok
  | 0, _ => []
  | _ + 1, [] => []
  | n + 1, c :: cs =>
    match ftTryWild (c :: cs) with
    | some rest => .wild :: ftToksFuel n rest
    | none => .lit c :: ftToksFuel n cs

/-- Anchored matching of the token list against a string (`RegExp.test` of
the built `^...$` pattern; `(.+)` consumes one or more non-terminator
characters, with backtracking existence semantics).  A `(.+)` group either
hands over to the remaining tokens or keeps consuming; one character is
consumed per step, so a fuel of `length + 1` is always enough. -/
def ftMatchFuel : Nat → List FTok → Str → Bool
  | 0, _, _ => false
  | _ + 1, [], s => s.isEmpty
  | _ + 1, .lit _ :: _, [] => false
  | n + 1, .lit c :: ts, d :: ds => c = d && ftMatchFuel n ts ds
  | _ + 1, .wild :: _, [] => false
  | n + 1, .wild :: ts, c :: cs =>
    if isTermChar c then false
    else (ftMatchFuel n ts cs || ftMatchFuel n (.wild :: ts) cs)

/-- `filenameTemplateToRegex`, as a test predicate. -/
def filenameTemplateToRegexTest (template : Str) : Str → Bool :=
  fun s => ftMatchFuel (s.length + 1) (ftToksFuel (template.length + 1) template) s

-- ===========================================================================
-- CSV import orchestration (`importFromCSV`): effects reified as data
-- ===========================================================================

/-- A storage mutation requested from the host (`vault.create`,
`vault.create` with a `Date.now()` collision suffix, `vault.process`). -/
inductive WriteOp where
  | create (path : Str) (content : Str)
  | createTimestamped (basePath : Str) (content : Str)
  | modify (basename : Str) (newContent : Str)
  deriving DecidableEq

/-- `CSVImportResult`. -/
structure CSVImportResult where
  created : Nat := 0
  updated : Nat := 0
  skipped : Nat := 0
  errors : List Str := []
  newTmdbIds : List Str := []
  deriving DecidableEq

/-- `createNote`: render filename and content, then create (with a
timestamp-suffixed name if the path is already taken; the timestamp itself
comes from `Date.now()` and stays outside the model). -/
def createNotePure (settings : LetterboxdSettings) (vaultPaths : List Str)
    (entry : LetterboxdEntry) : WriteOp × List Str :=
  let filename := generateFilename settings.filenameTemplate entry
  let content := renderTemplate settings.noteTemplate entry
  let filePath := settings.folderPath ++ '/' :: filename ++ str ".md"
  if vaultPaths.contains filePath then (.createTimestamped filePath content, vaultPaths)
  else (.create filePath content, vaultPaths ++ [filePath])

/-- Loop state of the apply phase: accumulated result and writes, the
claimed-TMDB-id set, the set of occupied vault paths, and the live disk
contents by basename (`vault.process` reads the stored file, not the
snapshot in `existingNotes`). -/
structure ImportState where
  result : CSVImportResult
  writes : List WriteOp
  tmdbIds : List Str
  vaultPaths : List Str
  disk : List (Str × Str)
  deriving DecidableEq

/-- Look up the live content of a note on disk. -/
def diskContent (disk : List (Str × Str)) (basename fallback : Str) : Str :=
  match disk.find? (fun p => p.1 = basename) with
  | some p => p.2
  | none => fallback

/-- Store new content for a note. -/
def diskStore (disk : List (Str × Str)) (basename content : Str) : List (Str × Str) :=
  disk.map (fun p => if p.1 = basename then (p.1, content) else p)

/-- Body of the per-entry loop of `importFromCSV` (apply phase). -/
def importStep (settings : LetterboxdSettings) (existingNotes : List ExistingNote)
    (filenameTest : Str → Bool) (st : ImportState) (entry : LetterboxdEntry) : ImportState :=
  match findMatchingNote entry existingNotes filenameTest settings with
  | .error msg =>
    { st with result :=
        { st.result with errors := st.result.errors ++ [entry.filmTitle ++ str ": " ++ msg] } }
  | .ok matchingNote =>
    let st1 :=
      match matchingNote with
      | some note =>
        let current := diskContent st.disk note.basename note.content
        let newContent := updateNoteFrontmatter current entry settings
        if newContent ≠ current then
          { st with
            result := { st.result with updated := st.result.updated + 1 },
            writes := st.writes ++ [.modify note.basename newContent],
            disk := diskStore st.disk note.basename newContent }
        else { st with result := { st.result with skipped := st.result.skipped + 1 } }
      | none =>
        let opVp := createNotePure settings st.vaultPaths entry
        { st with
          result := { st.result with created := st.result.created + 1 },
          writes := st.writes ++ [opVp.1],
          vaultPaths := opVp.2 }
    if ¬ entry.tmdbId.isEmpty && ¬ st1.tmdbIds.contains entry.tmdbId then
      { st1 with
        result := { st1.result with newTmdbIds := st1.result.newTmdbIds ++ [entry.tmdbId] },
        tmdbIds := st1.tmdbIds ++ [entry.tmdbId] }
    else st1

/-- `importFromCSV`, with the collaborator-supplied data (parsed entries,
existing notes, existing TMDB ids, occupied vault paths) as inputs and the
storage mutations as outputs.  The validation pass runs to completion
first; any validation error aborts the batch before any write. -/
def importFromCSVCore (entries : List LetterboxdEntry) (existingNotes : List ExistingNote)
    (existingTmdbIds : List Str) (vaultPaths : List Str) (settings : LetterboxdSettings) :
    CSVImportResult × List WriteOp :=
  let filenameTest := filenameTemplateToRegexTest settings.filenameTemplate
  let validationErrors := validateCSVImport entries existingNotes filenameTest settings
  if ¬ validationErrors.isEmpty then
    ({ errors := validationErrors }, [])
  else
    let init : ImportState :=
      { result := {}, writes := [], tmdbIds := existingTmdbIds, vaultPaths := vaultPaths,
        disk := existingNotes.map (fun n => (n.basename, n.content)) }
    let final := entries.foldl (importStep settings existingNotes filenameTest) init
    (final.result, final.writes)

-- ===========================================================================
-- Spec-side predicates used to state the (amended) merge properties
-- ===========================================================================

/-- Whether `updateNoteFrontmatter` processes a template line at all (the
three guards of its loop). -/
def activeLine (rawLine : Str) : Bool :=
  let t := jsTrim rawLine
  ¬ t.isEmpty && t.contains ':' && (findTemplateVarName t).isSome

/-- The captured existing value of a note line `ln` that starts with
`key:`, in the within-line case. -/
def lineCapture (k ln : Str) : Str := (ln.drop (k.length + 1)).dropWhile isWsChar

/-- Well-behavedness of one processed template frontmatter line: a
non-empty, brace-free key not starting with `-` and immediately followed by
the colon, and a rendered line that stays on one line, contains no `$`
replacement patterns, and carries a non-whitespace value. -/
def NiceLine (e : LetterboxdEntry) (rawLine : Str) : Prop :=
  activeLine rawLine = true →
    (lineKey (jsTrim rawLine) ≠ [] ∧
     (lineKey (jsTrim rawLine) ++ [':']).isPrefixOf (jsTrim rawLine) ∧
     '{' ∉ lineKey (jsTrim rawLine) ∧
     '\r' ∉ lineKey (jsTrim rawLine) ∧
     (lineKey (jsTrim rawLine)).head? ≠ some '-' ∧
     '\n' ∉ renderTemplate (jsTrim rawLine) e ∧
     '\r' ∉ renderTemplate (jsTrim rawLine) e ∧
     '$' ∉ renderTemplate (jsTrim rawLine) e ∧
     ((renderTemplate (jsTrim rawLine) e).drop ((lineKey (jsTrim rawLine)).length + 1)).any
       (fun c => ¬ isWsChar c) = true)

/-- The keys of the processed template lines. -/
def templKeys (tlines : List Str) : List Str :=
  (tlines.filter (fun l => activeLine l)).map (fun l => lineKey (jsTrim l))

/-- Well-behavedness of the whole template frontmatter: every processed
line is well-behaved and the processed keys are pairwise distinct. -/
def NiceTemplate (e : LetterboxdEntry) (tlines : List Str) : Prop :=
  (∀ l ∈ tlines, NiceLine e l) ∧ (templKeys tlines).Nodup

/-- Well-behavedness of an existing note's frontmatter with respect to the
template keys: no carriage returns, and every line carrying one of the
template keys has a non-whitespace value (so the `\s*` of the line regex
never crosses into the following line). -/
def NiceFm (keys : List Str) (fm : Str) : Prop :=
  '\r' ∉ fm ∧
  ∀ ln ∈ splitNl fm, ∀ k ∈ keys,
    (k ++ [':']).isPrefixOf ln → (ln.drop (k.length + 1)).any (fun c => ¬ isWsChar c) = true

/-- The postcondition claimed for `generateFilename` output: no forbidden
character, and no leading/trailing dot or whitespace. -/
def headIsDotOrWs (s : Str) : Bool :=
  match s with
  | [] => false
  | c :: _ => c = '.' || isWsChar c

/-- The full sanitization claim on a produced filename. -/
def filenameSanitizedClaim (s : Str) : Bool :=
  s.all (fun c => ¬ isForbiddenChar c) && ¬ headIsDotOrWs s && ¬ headIsDotOrWs s.reverse

-- ===========================================================================
-- Concrete fixtures for counterexamples and witnesses
-- ===========================================================================

/-- A representative diary entry. -/
def entryA : LetterboxdEntry := {
  filmTitle := str "Die Hard", filmYear := 1988, userRatingNo := some (9/2),
  userRatingStars := str "****", watchedDate := str "2024-01-02", rewatch := false,
  link := str "https://letterboxd.com/u/film/die-hard/", tmdbId := str "562",
  posterUrl := str "https://img/p.jpg", guid := str "letterboxd-watch-123",
  review := str "Great.", pubDate := str "2024-01-03", containsSpoilers := false,
  tags := [str "a", str "b"] }

/-- Settings whose note template renders the tags as a multi-line bullet
list inside the frontmatter. -/
def cexC1Settings : LetterboxdSettings := {
  folderPath := str "Letterboxd",
  filenameTemplate := str "\x7b\x7bwatchedDate\x7d\x7d - \x7b\x7bfilmTitle\x7d\x7d",
  noteTemplate := str "---\nletterboxd_tags: \x7b\x7btags bullet=true\x7d\x7d\n---\nB" }

/-- An existing note for the idempotence counterexample. -/
def cexC1Content : Str := str "---\nletterboxd_tags: x\n---\nB"

/-- Witness settings: two single-line frontmatter fields. -/
def witC1Settings : LetterboxdSettings := {
  folderPath := str "Letterboxd",
  filenameTemplate := str "\x7b\x7bwatchedDate\x7d\x7d - \x7b\x7bfilmTitle\x7d\x7d",
  noteTemplate := str "---\nletterboxd_tags: \x7b\x7btags yaml=true\x7d\x7d\nwatched_date: \x7b\x7bwatchedDate\x7d\x7d\n---\nBody" }

/-- Witness note content (pending tags sentinel, stale date). -/
def witC1Content : Str :=
  str "---\nletterboxd_tags: _pending_csv_import\nwatched_date: 2020-05-05\nuser_line: kept\n---\nUser body"

/-- Settings whose note template renders the review into the frontmatter. -/
def cexC2Settings : LetterboxdSettings := {
  folderPath := str "Letterboxd",
  filenameTemplate := str "\x7b\x7bwatchedDate\x7d\x7d - \x7b\x7bfilmTitle\x7d\x7d",
  noteTemplate := str "---\nreview: \x7b\x7breview\x7d\x7d\n---\nB" }

/-- An entry whose review contains a line that starts with `---`. -/
def cexC2Entry : LetterboxdEntry := { entryA with review := str "x\n--- e" }

/-- Existing note for the body-preservation counterexample. -/
def cexC2Content : Str := str "---\nreview: old\n---\nMYBODY"

/-- Template whose first key's note line has an all-whitespace value. -/
def cexC3Settings : LetterboxdSettings := {
  folderPath := str "Letterboxd",
  filenameTemplate := str "\x7b\x7bwatchedDate\x7d\x7d - \x7b\x7bfilmTitle\x7d\x7d",
  noteTemplate := str "---\nx: \x7b\x7bfilmTitle\x7d\x7d\nletterboxd_guid: \x7b\x7bguid\x7d\x7d\n---\n" }

/-- Existing note whose `x:` line is empty and whose immutable GUID line is
populated. -/
def cexC3Content : Str := str "---\nx:\nletterboxd_guid: 123\n---\nB"

/-- Entry used in the immutable-field counterexample. -/
def cexC3Entry : LetterboxdEntry := { entryA with filmTitle := str "X", guid := str "456" }

/-- Witness settings for the immutable-field invariant. -/
def witC3Settings : LetterboxdSettings := {
  folderPath := str "Letterboxd",
  filenameTemplate := str "\x7b\x7bwatchedDate\x7d\x7d - \x7b\x7bfilmTitle\x7d\x7d",
  noteTemplate := str "---\nletterboxd_guid: \x7b\x7bguid\x7d\x7d\nwatched_date: \x7b\x7bwatchedDate\x7d\x7d\n---\n" }

/-- Witness note for the immutable-field invariant. -/
def witC3Content : Str := str "---\nletterboxd_guid: abc\nwatched_date: 2020-05-05\n---\nB"

/-- Template with an empty-valued first key before the tags line. -/
def cexC4Settings : LetterboxdSettings := {
  folderPath := str "Letterboxd",
  filenameTemplate := str "\x7b\x7bwatchedDate\x7d\x7d - \x7b\x7bfilmTitle\x7d\x7d",
  noteTemplate := str "---\na: \x7b\x7bfilmTitle\x7d\x7d\nletterboxd_tags: \x7b\x7btags yaml=true\x7d\x7d\n---\n" }

/-- Existing note whose `a:` line is empty and whose tags line carries the
pending sentinel. -/
def cexC4Content : Str := str "---\na:\nletterboxd_tags: _pending_csv_import\n---\nB"

/-- Entry used in the sentinel counterexample. -/
def cexC4Entry : LetterboxdEntry := { entryA with filmTitle := str "X", tags := [str "cinema"] }

/-- Witness settings for the sentinel override. -/
def witC4Settings : LetterboxdSettings := {
  folderPath := str "Letterboxd",
  filenameTemplate := str "\x7b\x7bwatchedDate\x7d\x7d - \x7b\x7bfilmTitle\x7d\x7d",
  noteTemplate := str "---\nletterboxd_tags: \x7b\x7btags yaml=true\x7d\x7d\n---\n" }

/-- Witness note carrying the pending sentinel. -/
def witC4Content : Str := str "---\nletterboxd_tags: _pending_csv_import\n---\nB"

/-- Entry with an empty tag list (the rendered value `[]` is empty in the
code's own sense). -/
def witC4Entry : LetterboxdEntry := { entryA with tags := [] }

/-- Entry whose film title begins and ends with a dot-protected space. -/
def cexC7Entry : LetterboxdEntry := { entryA with filmTitle := str ". a." }

/-- Matcher fixtures: a note matching by GUID. -/
def noteByGuid : ExistingNote := {
  basename := str "2024-01-02 - Die Hard",
  guid := some (str "letterboxd-watch-123"),
  content := str "---\nletterboxd_guid: letterboxd-watch-123\n---" }

/-- Matcher fixtures: a note matching by filename pattern plus title. -/
def noteByTitle : ExistingNote := {
  basename := str "2024-01-03 - Die Hard",
  guid := none,
  content := str "---\nfilm: \"[[Die Hard (1988)]]\"\n---" }

/-- Settings shared by the matcher fixtures. -/
def settingsA : LetterboxdSettings := {
  folderPath := str "Letterboxd",
  filenameTemplate := str "\x7b\x7bwatchedDate\x7d\x7d - \x7b\x7bfilmTitle\x7d\x7d",
  noteTemplate := str "---\nletterboxd_guid: \x7b\x7bguid\x7d\x7d\n---\nB" }

/-- Settings whose note template has no frontmatter block. -/
def witC10Settings : LetterboxdSettings := {
  folderPath := str "Letterboxd",
  filenameTemplate := str "\x7b\x7bwatchedDate\x7d\x7d - \x7b\x7bfilmTitle\x7d\x7d",
  noteTemplate := str "# Just a heading \x7b\x7bfilmTitle\x7d\x7d" }

/-- No occurrence of `\n---` anywhere in the string (scanned suffix-wise). -/
def okND : Str → Bool
  | [] => true
  | c :: cs => ¬ (('\n' :: str "---").isPrefixOf (c :: cs)) && okND cs

/-- Decidable equality for `Except` values. -/
instance exceptDecEq {e a : Type} [DecidableEq e] [DecidableEq a] : DecidableEq (Except e a) :=
  fun x y =>
    match x, y with
    | .error e1, .error e2 =>
      if h : e1 = e2 then isTrue (by rw [h]) else isFalse (fun hh => h (Except.error.inj hh))
    | .ok v1, .ok v2 =>
      if h : v1 = v2 then isTrue (by rw [h]) else isFalse (fun hh => h (Except.ok.inj hh))
    | .error _, .ok _ => isFalse (fun hh => Except.noConfusion hh)
    | .ok _, .error _ => isFalse (fun hh => Except.noConfusion hh)

/-- Index of the first line starting with `key:` (the line the multiline
regex `^key:` matches first). -/
def firstPfxIdx (k : Str) : List Str → Option Nat
  | [] => none
  | ln :: rest =>
    if (k ++ [':']).isPrefixOf ln then some 0 else (firstPfxIdx k rest).map (fun i => i + 1)

/-- The effect of one processed template line on its (within-line) matched
note line: replace it by the rendered line when `shouldUpdateValue` fires,
keep it otherwise. -/
def stepResult (e : LetterboxdEntry) (tline ln : Str) : Str :=
  let t := jsTrim tline
  let k := lineKey t
  let var := (findTemplateVarName t).getD []
  let r := renderTemplate t e
  if shouldUpdateValue var (newValueOf r) (lineCapture k ln) then r else ln

/-- Loop invariant of the merge fold: after processing the template lines
`P`, every line of the current frontmatter either is untouched (no
processed line targets it) or equals the `stepResult` of the unique
processed template line whose key first matches at that index. -/
def ProcessedInv (e : LetterboxdEntry) (P L0 L : List Str) : Prop :=
  L.length = L0.length ∧
  ∀ i ln0, L0.get? i = some ln0 →
    ((∀ tl ∈ P, ¬(activeLine tl = true ∧
        firstPfxIdx (lineKey (jsTrim tl)) L0 = some i)) ∧ L.get? i = some ln0)
    ∨ (∃ tl ∈ P, activeLine tl = true ∧
        firstPfxIdx (lineKey (jsTrim tl)) L0 = some i ∧
        L.get? i = some (stepResult e tl ln0))

/-- Whether one template line would trigger a replacement on `fm`: the
three loop guards, a successful key-regex match, and a positive
`shouldUpdateValue` decision. -/
def lineWouldUpdate (e : LetterboxdEntry) (fm tl : Str) : Bool :=
  activeLine tl &&
    match matchKey (lineKey (jsTrim tl)) fm with
    | none => false
    | some (_, _, cap, _) =>
      shouldUpdateValue ((findTemplateVarName (jsTrim tl)).getD [])
        (newValueOf (renderTemplate (jsTrim tl) e)) cap

instance niceLineDec (e : LetterboxdEntry) (tl : Str) : Decidable (NiceLine e tl) := by
  unfold NiceLine
  infer_instance

instance niceTemplateDec (e : LetterboxdEntry) (tlines : List Str) :
    Decidable (NiceTemplate e tlines) := by
  unfold NiceTemplate
  infer_instance

instance niceFmDec (keys : List Str) (fm : Str) : Decidable (NiceFm keys fm) := by
  unfold NiceFm
  infer_instance

-- ===========================================================================
-- Theorems
-- ===========================================================================


/-- Soundness of `splitFirst`: a successful split decomposes the input. -/
theorem splitFirst_sound {pat : Str} : ∀ {s b a : Str},
    splitFirst pat s = some (b, a) → s = b ++ pat ++ a := by
  intro s
  induction s with
  | nil =>
    intro b a h
    simp only [splitFirst] at h
    split at h
    · rename_i hp
      simp only [Option.some.injEq, Prod.mk.injEq] at h
      obtain ⟨rfl, rfl⟩ := h
      have hpre : pat <+: ([] : Str) := List.isPrefixOf_iff_prefix.mp hp
      have : pat = [] := List.prefix_nil.mp hpre
      simp [this]
    · exact absurd h (by simp)
  | cons c cs ih =>
    intro b a h
    simp only [splitFirst] at h
    split at h
    · rename_i hp
      simp only [Option.some.injEq, Prod.mk.injEq] at h
      obtain ⟨rfl, rfl⟩ := h
      have hpre : pat <+: (c :: cs) := List.isPrefixOf_iff_prefix.mp hp
      have := List.prefix_iff_eq_append.mp hpre
      simpa using this.symm
    · cases hb : splitFirst pat cs with
      | none =>
        rw [hb] at h
        simp only [Option.map_none'] at h
        cases h
      | some p =>
        obtain ⟨b', a'⟩ := p
        rw [hb] at h
        simp only [Option.map_some', Option.some.injEq, Prod.mk.injEq] at h
        obtain ⟨rfl, rfl⟩ := And.intro h.1.symm h.2.symm
        simp [ih hb]

/-- The closing delimiter pattern searched for by `fmSplit`. -/
theorem nlDashes_eq : '\n' :: str "---" = ['\n', '-', '-', '-'] := rfl

/-- The delimiter token itself. -/
theorem dashes_eq : str "---" = ['-', '-', '-'] := rfl

/-- The prefix part produced by `splitFirst` on the delimiter pattern
contains no occurrence of the pattern. -/
theorem splitFirst_okND : ∀ {s b a : Str},
    splitFirst ('\n' :: str "---") s = some (b, a) → okND b = true := by
  intro s
  induction s with
  | nil =>
    intro b a h
    simp only [splitFirst] at h
    split at h
    · rename_i hp
      simp only [List.isPrefixOf, nlDashes_eq] at hp
      exact absurd hp (by decide)
    · cases h
  | cons c cs ih =>
    intro b a h
    simp only [splitFirst] at h
    split at h
    · rename_i hp
      simp only [Option.some.injEq, Prod.mk.injEq] at h
      obtain ⟨rfl, rfl⟩ := h
      rfl
    · rename_i hp
      cases hb : splitFirst ('\n' :: str "---") cs with
      | none => rw [hb] at h; simp only [Option.map_none'] at h; cases h
      | some p =>
        obtain ⟨b', a'⟩ := p
        rw [hb] at h
        simp only [Option.map_some', Option.some.injEq, Prod.mk.injEq] at h
        obtain ⟨hb1, hb2⟩ := h
        subst hb1
        subst hb2
        have hok := ih hb
        simp only [okND, hok, Bool.and_true, decide_eq_true_eq]
        intro hpre
        apply hp
        have hsub : b' <+: cs := by
          have := splitFirst_sound hb
          exact ⟨('\n' :: str "---") ++ a', by simp [this]⟩
        have : (c :: b') <+: (c :: cs) := by
          exact List.cons_prefix_cons.mpr ⟨rfl, hsub⟩
        have hp2 : ('\n' :: str "---") <+: (c :: b') := List.isPrefixOf_iff_prefix.mp hpre
        exact List.isPrefixOf_iff_prefix.mpr (hp2.trans this)

/-- A `\n---` occurrence cannot start strictly inside a pattern-free prefix
and complete across the boundary into an appended `\n---`. -/
theorem not_prefix_nlDashes_boundary {c : Char} {x' : Str} (y : Str)
    (hnp : ¬ ('\n' :: str "---").isPrefixOf (c :: x') = true) :
    ('\n' :: str "---").isPrefixOf (c :: (x' ++ '\n' :: str "---" ++ y)) = false := by
  rcases x' with _ | ⟨a1, _ | ⟨a2, _ | ⟨a3, t⟩⟩⟩ <;>
    (simp_all [nlDashes_eq, List.isPrefixOf, beq_iff_eq, List.cons_append, List.nil_append];
     try tauto)

/-- Reassembly: appending the delimiter and a tail to a pattern-free prefix
splits back at exactly that point. -/
theorem okND_reassemble : ∀ {x : Str} (y : Str), okND x = true →
    splitFirst ('\n' :: str "---") (x ++ '\n' :: str "---" ++ y) = some (x, y) := by
  intro x
  induction x with
  | nil =>
    intro y _
    simp only [List.nil_append, splitFirst]
    rw [if_pos (by simp [ List.isPrefixOf_iff_prefix, List.prefix_append])]
    simp [nlDashes_eq, dashes_eq]
  | cons c x' ih =>
    intro y hok
    simp only [okND, Bool.and_eq_true, decide_eq_true_eq] at hok
    obtain ⟨hnp, hok'⟩ := hok
    have step : ∀ t : Str, splitFirst ('\n' :: str "---") (c :: t) =
        (if ('\n' :: str "---").isPrefixOf (c :: t) then some ([], (c :: t).drop 4)
         else (splitFirst ('\n' :: str "---") t).map (fun p => (c :: p.1, p.2))) := by
      intro t; rfl
    have hnotpre := not_prefix_nlDashes_boundary y hnp
    have goal_eq : (c :: x') ++ ('\n' :: str "---") ++ y
        = c :: (x' ++ '\n' :: str "---" ++ y) := by simp
    rw [goal_eq, step, if_neg (by rw [hnotpre]; simp), ih y hok']
    rfl

/-- Structure of a successful frontmatter extraction. -/
theorem fmSplit_sound {content fm body : Str} (h : fmSplit content = some (fm, body)) :
    content = str "---\n" ++ fm ++ '\n' :: str "---" ++ body ∧ okND fm = true := by
  unfold fmSplit at h
  split at h
  · rename_i hp
    refine ⟨?_, splitFirst_okND h⟩
    have hd := splitFirst_sound h
    have hpre : str "---\n" <+: content := List.isPrefixOf_iff_prefix.mp hp
    have hcontent := List.prefix_iff_eq_append.mp hpre
    calc content = str "---\n" ++ content.drop 4 := by
          conv_lhs => rw [← hcontent]
          rw [show List.length (str "---\n") = 4 from rfl]
      _ = str "---\n" ++ fm ++ '\n' :: str "---" ++ body := by rw [hd]; simp
  · cases h

/-- Reassembly of a delimited frontmatter block. -/
theorem fmSplit_reassemble {fm : Str} (body : Str) (hok : okND fm = true) :
    fmSplit (str "---\n" ++ fm ++ '\n' :: str "---" ++ body) = some (fm, body) := by
  unfold fmSplit
  rw [if_pos (by
    refine List.isPrefixOf_iff_prefix.mpr ?_
    have : str "---\n" ++ (fm ++ '\n' :: str "---" ++ body)
        = str "---\n" ++ fm ++ '\n' :: str "---" ++ body := by simp
    rw [← this]
    exact List.prefix_append _ _)]
  have hdrop : (str "---\n" ++ fm ++ '\n' :: str "---" ++ body).drop 4
      = fm ++ '\n' :: str "---" ++ body := by
    have : str "---\n" ++ fm ++ '\n' :: str "---" ++ body
        = str "---\n" ++ (fm ++ '\n' :: str "---" ++ body) := by simp
    rw [this]
    rfl
  rw [hdrop]
  exact okND_reassemble body hok

/-- Unfolding of `updateNoteFrontmatter` when both the note and the
template have well-formed frontmatter. -/
theorem update_eq {content fm body tfm trest : Str} {e : LetterboxdEntry}
    {settings : LetterboxdSettings} (hc : fmSplit content = some (fm, body))
    (ht : fmSplit settings.noteTemplate = some (tfm, trest)) :
    updateNoteFrontmatter content e settings
      = str "---\n" ++ mergeFm e (splitNl tfm) fm ++ '\n' :: str "---" ++ body := by
  unfold updateNoteFrontmatter
  rw [hc, ht]

/-- C10: when the configured body template has no well-formed frontmatter
block, `updateNoteFrontmatter` returns the input content unchanged, for
every content string and record (and likewise when the note itself has no
well-formed frontmatter block). -/
theorem merge_noop_without_template_frontmatter (content : Str) (e : LetterboxdEntry)
    (settings : LetterboxdSettings) (h : fmSplit settings.noteTemplate = none) :
    updateNoteFrontmatter content e settings = content := by
  unfold updateNoteFrontmatter
  cases hc : fmSplit content with
  | none => rfl
  | some p =>
    obtain ⟨fm, body⟩ := p
    rw [h]

/-- Witness for C10 at a concrete template without frontmatter. -/
theorem merge_noop_without_template_frontmatter_witness :
    fmSplit witC10Settings.noteTemplate = none ∧
    updateNoteFrontmatter witC1Content entryA witC10Settings = witC1Content :=
  ⟨by decide, merge_noop_without_template_frontmatter _ _ _ (by decide)⟩

/-- C1 counterexample: with a template line that renders the tags as a
multi-line bullet list, a second merge with the same record appends a
duplicate line, so `merge (merge content record) record ≠ merge content
record`. -/
theorem merge_idempotence_counterexample :
    updateNoteFrontmatter (updateNoteFrontmatter cexC1Content entryA cexC1Settings)
        entryA cexC1Settings
      ≠ updateNoteFrontmatter cexC1Content entryA cexC1Settings := by decide

/-- C2 counterexample: a record whose review contains a `---`-initial line
makes the merged note re-parse with an earlier closing delimiter, so the
substring after the result's frontmatter block differs from the input's
body. -/
theorem merge_body_preservation_counterexample :
    (fmSplit cexC2Content).map (fun p => p.2) = some (str "\nMYBODY") ∧
    (fmSplit (updateNoteFrontmatter cexC2Content cexC2Entry cexC2Settings)).map
        (fun p => p.2)
      ≠ some (str "\nMYBODY") := by decide

/-- C3 counterexample: the `\s*` of the preceding key's line regex crosses
the line break of an empty-valued line and the replacement deletes the
populated immutable GUID line. -/
theorem merge_immutable_counterexample :
    containsSub (str "letterboxd_guid: 123") cexC3Content = true ∧
    updateNoteFrontmatter cexC3Content cexC3Entry cexC3Settings
      = str "---\nx: X\n---\nB" ∧
    containsSub (str "letterboxd_guid")
        (updateNoteFrontmatter cexC3Content cexC3Entry cexC3Settings) = false := by decide

/-- C4 counterexample: the sentinel-bearing tags line is swallowed by the
preceding empty-valued key's replacement instead of being replaced by the
freshly rendered tags line. -/
theorem merge_sentinel_counterexample :
    containsSub TAGS_PENDING_FROM_RSS cexC4Content = true ∧
    updateNoteFrontmatter cexC4Content cexC4Entry cexC4Settings
      = str "---\na: X\n---\nB" ∧
    containsSub (str "letterboxd_tags")
        (updateNoteFrontmatter cexC4Content cexC4Entry cexC4Settings) = false := by decide

/-- Membership is preserved from `dropRightWhile` back to the list. -/
theorem mem_of_mem_dropRightWhile {p : Char → Bool} {l : List Char} {c : Char}
    (h : c ∈ dropRightWhile p l) : c ∈ l := by
  unfold dropRightWhile at h
  have := (List.dropWhile_sublist _).mem (List.mem_reverse.mp h)
  exact List.mem_reverse.mp this

/-- Membership is preserved from `jsTrim` back to the string. -/
theorem mem_of_mem_jsTrim {l : List Char} {c : Char} (h : c ∈ jsTrim l) : c ∈ l :=
  (List.dropWhile_sublist _).mem (mem_of_mem_dropRightWhile h)

/-- The head of `dropWhile p` never satisfies `p`. -/
theorem head?_dropWhile_not {p : Char → Bool} : ∀ {l : List Char} {c : Char},
    (l.dropWhile p).head? = some c → p c = false := by
  intro l
  induction l with
  | nil => intro c h; cases h
  | cons d ds ih =>
    intro c h
    by_cases hd : p d
    · rw [List.dropWhile_cons_of_pos hd] at h
      exact ih h
    · rw [List.dropWhile_cons_of_neg hd] at h
      cases h
      simpa using hd

/-- `dropRightWhile p l` is a prefix of `l`. -/
theorem dropRightWhile_pref (p : Char → Bool) (l : List Char) :
    dropRightWhile p l <+: l := by
  unfold dropRightWhile
  have h : l.reverse.dropWhile p <:+ l.reverse := List.dropWhile_suffix p
  obtain ⟨t, ht⟩ := h
  refine ⟨t.reverse, ?_⟩
  have := congrArg List.reverse ht
  simpa using this

/-- The head of a non-empty prefix is the head of the whole list. -/
theorem head?_of_prefix {l m : List Char} {c : Char} (h : l <+: m)
    (hc : l.head? = some c) : m.head? = some c := by
  obtain ⟨t, rfl⟩ := h
  cases l with
  | nil => cases hc
  | cons a l' => simpa using hc

/-- The last element of `dropRightWhile p` never satisfies `p`. -/
theorem getLast?_dropRightWhile_not {p : Char → Bool} {l : List Char} {c : Char}
    (h : (dropRightWhile p l).getLast? = some c) : p c = false := by
  unfold dropRightWhile at h
  rw [List.getLast?_reverse] at h
  exact head?_dropWhile_not h

/-- C7 counterexample: a title whose whitespace is protected by dots
survives the trim and is then exposed by dot-stripping, so the output
starts with whitespace. -/
theorem filename_sanitization_counterexample :
    generateFilename (str "\x7b\x7bfilmTitle\x7d\x7d") cexC7Entry = str " a" ∧
    filenameSanitizedClaim (generateFilename (str "\x7b\x7bfilmTitle\x7d\x7d") cexC7Entry) = false := by
  decide

/-- C7 amended: for every filename template and every record, the output of
`generateFilename` contains none of the forbidden characters and neither
starts nor ends with a dot (leading or trailing whitespace can remain when
dot-stripping exposes it). -/
theorem filename_sanitization_amended (t : Str) (e : LetterboxdEntry) :
    (∀ c ∈ generateFilename t e, isForbiddenChar c = false) ∧
    (generateFilename t e).head? ≠ some '.' ∧
    (generateFilename t e).getLast? ≠ some '.' := by
  have hdef : generateFilename t e
      = sanitizeFilename (substituteVariables letterboxdEngine t e) := rfl
  set s0 := substituteVariables letterboxdEngine t e with hs0
  rw [hdef]
  unfold sanitizeFilename
  set flt := s0.filter (fun c => ¬ isForbiddenChar c) with hflt
  refine ⟨?_, ?_, ?_⟩
  · intro c hc
    have h1 : c ∈ (jsTrim flt).dropWhile (fun c => c = '.') := mem_of_mem_dropRightWhile hc
    have h2 : c ∈ jsTrim flt := (List.dropWhile_sublist _).mem h1
    have h3 : c ∈ flt := mem_of_mem_jsTrim h2
    have := List.of_mem_filter h3
    simpa using this
  · intro h
    have h1 := head?_of_prefix (dropRightWhile_pref _ _) h
    have := head?_dropWhile_not h1
    simp at this
  · intro h
    have := getLast?_dropRightWhile_not h
    simp at this

/-- C8: the truthiness predicate of conditionals classifies lists by
non-emptiness, numbers by being nonzero, booleans by themselves, strings by
not being a case-insensitive falsy literal; the whole-value string variant
additionally treats `"0"` as falsy; and an unknown or missing accessor
makes the conditional evaluate as false (the block is dropped). -/
theorem conditional_truthiness :
    (∀ l : List Str, isTruthy (RawValue.arrV l) = true ↔ l ≠ []) ∧
    (∀ q : Rat, isTruthy (RawValue.numV q) = true ↔ q ≠ 0) ∧
    (∀ b : Bool, isTruthy (RawValue.boolV b) = b) ∧
    (∀ s : Str, isTruthy (RawValue.strV s) = true ↔
      lowerStr s ∉ [str "", str "false", str "null", str "undefined"]) ∧
    isTruthyV1 (str "0") = false ∧
    (∀ s : Str, isTruthyV1 s = true ↔
      lowerStr s ∉ [str "", str "false", str "null", str "undefined", str "0"]) ∧
    (∀ (name : Str) (e : LetterboxdEntry), letterboxdAccessors (String.mk name) = none →
      condKeep letterboxdEngine e name = false) ∧
    processConditionals letterboxdEngine (str "\x7b\x7b#if unknownName\x7d\x7dX\x7b\x7b/if\x7d\x7d") entryA = [] := by
  refine ⟨?_, ?_, ?_, ?_, by decide, ?_, ?_, by decide⟩
  · intro l
    simp [isTruthy, List.length_pos]
  · intro q
    simp [isTruthy]
  · intro b
    simp [isTruthy]
  · intro s
    simp [isTruthy, List.contains, List.elem_eq_mem]
  · intro s
    simp [isTruthyV1, List.contains, List.elem_eq_mem]
  · intro name e h
    simp [condKeep, letterboxdEngine, h]

/-- Witness for C8: the unknown name `nope` yields a false conditional. -/
theorem conditional_truthiness_witness :
    letterboxdAccessors (String.mk (str "nope")) = none ∧
    condKeep letterboxdEngine entryA (str "nope") = false :=
  ⟨rfl, conditional_truthiness.2.2.2.2.2.2.1 (str "nope") entryA rfl⟩

/-- A position not starting with `{` never matches the variable pattern. -/
theorem svTryMatch_cons_ne {c : Char} (cs : Str) (hc : c ≠ '{') :
    svTryMatch (c :: cs) = none := by
  unfold svTryMatch
  rw [if_neg]
  simp only [str, List.isPrefixOf, Bool.and_eq_true, beq_iff_eq]
  exact fun h => hc h.1.symm

/-- Scanner step on a non-`{` character. -/
theorem svFuel_cons_ne {T : Type} (cfg : TemplateEngineConfig T) (data : T) {c : Char}
    (cs : Str) (n : Nat) (hc : c ≠ '{') :
    svFuel cfg data (n + 1) (c :: cs) = c :: svFuel cfg data n cs := by
  simp only [svFuel]
  rw [svTryMatch_cons_ne cs hc]

/-- `takeWhile` over an append whose first part satisfies the predicate and
whose next element does not. -/
theorem takeWhile_append_cons {p : Char → Bool} : ∀ {xs : List Char} {y : Char} {ys : List Char},
    (∀ c ∈ xs, p c = true) → p y = false → (xs ++ y :: ys).takeWhile p = xs := by
  intro xs
  induction xs with
  | nil => intro y ys _ hy; simpa [List.takeWhile_cons] using hy
  | cons x xs' ih =>
    intro y ys hall hy
    have hx : p x = true := hall x (by simp)
    simp only [List.cons_append, List.takeWhile_cons, hx]
    simp [ih (fun c hc => hall c (by simp [hc])) hy]

/-- A successful variable match consumes at least the opening braces. -/
theorem svTryMatch_some_length {s name seg rest : Str}
    (h : svTryMatch s = some (name, seg, rest)) : rest.length < s.length := by
  unfold svTryMatch at h
  simp only [] at h
  split at h
  · rename_i hp
    have hs2 : 2 ≤ s.length := by
      have := (List.isPrefixOf_iff_prefix.mp hp).length_le
      simpa [str] using this
    split at h
    · cases h
    · split at h
      · simp only [Option.some.injEq, Prod.mk.injEq] at h
        obtain ⟨rfl, rfl, rfl⟩ := h
        simp only [List.length_drop]
        omega
      · split at h
        · cases h
        · split at h
          · cases h
          · split at h
            · cases h
            · split at h
              · simp only [Option.some.injEq, Prod.mk.injEq] at h
                obtain ⟨rfl, rfl, rfl⟩ := h
                simp only [List.length_drop]
                omega
              · cases h
  · cases h

/-- The scanner result is fuel-independent once the fuel exceeds the input
length. -/
theorem svFuel_fuel_invariant {T : Type} (cfg : TemplateEngineConfig T) (data : T) :
    ∀ (n m : Nat) {s : Str}, s.length < n → s.length < m →
      svFuel cfg data n s = svFuel cfg data m s := by
  intro n
  induction n with
  | zero => intro m s hn _; omega
  | succ n' ih =>
    intro m s hn hm
    cases m with
    | zero => omega
    | succ m' =>
      cases s with
      | nil => rfl
      | cons c cs =>
        unfold svFuel
        cases hmatch : svTryMatch (c :: cs) with
        | none =>
          have hcs : cs.length < n' := by simp at hn; omega
          have hcs' : cs.length < m' := by simp at hm; omega
          rw [ih m' hcs hcs']
        | some p =>
          obtain ⟨name, seg, rest⟩ := p
          have hr := svTryMatch_some_length hmatch
          simp only [List.length_cons] at hn hm hr
          have h1 : rest.length < n' := by omega
          have h2 : rest.length < m' := by omega
          simp only []
          rw [ih m' h1 h2]

/-- The opening braces token. -/
theorem braces_eq : str "\x7b\x7b" = ['{', '{'] := rfl

/-- The closing braces token. -/
theorem closeBraces_eq : str "\x7d\x7d" = ['}', '}'] := rfl

/-- A whitespace character is not a word character. -/
theorem wsChar_not_word {c : Char} (h : isWsChar c = true) : isWordChar c = false := by
  simp only [isWsChar, Bool.or_eq_true, decide_eq_true_eq] at h
  rcases h with ((rfl | rfl) | rfl) | rfl <;> decide

/-- A whitespace character is not a closing brace. -/
theorem wsChar_ne_close {c : Char} (h : isWsChar c = true) : c ≠ '}' := by
  simp only [isWsChar, Bool.or_eq_true, decide_eq_true_eq] at h
  rcases h with ((rfl | rfl) | rfl) | rfl <;> decide

/-- A well-formed variable reference at the head of the input is matched
exactly, leaving the rest. -/
theorem svTryMatch_block {name seg post : Str}
    (hname : name ≠ []) (hword : ∀ c ∈ name, isWordChar c = true)
    (hseg : seg = [] ∨ (∃ c0 rest0, seg = c0 :: rest0 ∧ isWsChar c0 = true ∧
      rest0 ≠ [] ∧ '}' ∉ seg)) :
    svTryMatch (str "\x7b\x7b" ++ name ++ seg ++ str "\x7d\x7d" ++ post) = some (name, seg, post) := by
  unfold svTryMatch
  rw [if_pos (by
    apply List.isPrefixOf_iff_prefix.mpr
    simp only [List.append_assoc]
    exact List.prefix_append _ _)]
  have hdrop2 : (str "\x7b\x7b" ++ name ++ seg ++ str "\x7d\x7d" ++ post).drop 2
      = name ++ (seg ++ (str "\x7d\x7d" ++ post)) := by
    simp only [List.append_assoc]
    rw [show (2 : Nat) = (str "\x7b\x7b").length from rfl, List.drop_left]
  simp only [hdrop2]
  have hnext : ∀ X : Str, (name ++ X).drop name.length = X := fun X => List.drop_left _ _
  rcases hseg with rfl | ⟨c0, rest0, rfl, hws, hr0, hnotin⟩
  · have htw : (name ++ ([] ++ (str "\x7d\x7d" ++ post))).takeWhile isWordChar = name := by
      simp only [List.nil_append, closeBraces_eq]
      exact takeWhile_append_cons hword (by decide)
    simp only [List.nil_append] at htw ⊢
    rw [htw, if_neg hname, hnext]
    rw [if_pos (by
      apply List.isPrefixOf_iff_prefix.mpr
      exact List.prefix_append _ _)]
    rw [show (str "\x7d\x7d" ++ post).drop 2 = post from by
      rw [show (2 : Nat) = (str "\x7d\x7d").length from rfl, List.drop_left]]
  · have htw : (name ++ ((c0 :: rest0) ++ (str "\x7d\x7d" ++ post))).takeWhile isWordChar = name := by
      simp only [List.cons_append]
      exact takeWhile_append_cons hword (wsChar_not_word hws)
    rw [htw, if_neg hname, hnext]
    rw [if_neg (by
      simp only [closeBraces_eq, List.cons_append, List.isPrefixOf, Bool.and_eq_true, beq_iff_eq]
      exact fun hh => (wsChar_ne_close hws) hh.1.symm)]
    have htw2 : ((c0 :: rest0) ++ (str "\x7d\x7d" ++ post)).takeWhile (fun c => c ≠ '}') 
        = c0 :: rest0 := by
      refine takeWhile_append_cons ?_ (by simp [closeBraces_eq])
      intro c hcmem
      have hne : c ≠ '}' := by
        intro hcc
        subst hcc
        exact hnotin hcmem
      simpa using hne
    simp only [closeBraces_eq] at htw2 ⊢
    rw [htw2]
    simp only []
    rw [if_neg (by simp [hws]), if_neg (by simp [hr0])]
    rw [if_pos (by
      apply List.isPrefixOf_iff_prefix.mpr
      rw [show ((c0 :: rest0) ++ (['}', '}'] ++ post)).drop (c0 :: rest0).length
          = ['}', '}'] ++ post from List.drop_left _ _]
      exact List.prefix_append _ _)]
    rw [show ((c0 :: rest0) ++ (['}', '}'] ++ post)).drop ((c0 :: rest0).length + 2) = post from by
      simp [List.drop_append]]

/-- The emission for an unknown name is the original matched text. -/
theorem svEmit_unknown {T : Type} (cfg : TemplateEngineConfig T) (data : T) {name seg : Str}
    (hsh : cfg.specialHandlers (String.mk name) = none)
    (hacc : cfg.accessors (String.mk name) = none) :
    svEmit cfg data name seg = str "\x7b\x7b" ++ name ++ seg ++ str "\x7d\x7d" := by
  unfold svEmit
  rw [hsh, hacc]

/-- C9: a variable reference whose name is unknown to both the accessor
table and the special-handler table is left in the rendered output as the
original literal `{{...}}` text, unchanged, while scanning continues after
it; no error is raised (the function is total). -/
theorem unknown_variable_pass_through {T : Type} (cfg : TemplateEngineConfig T) (data : T)
    (pre name seg post : Str)
    (hpre : '{' ∉ pre)
    (hname : name ≠ []) (hword : ∀ c ∈ name, isWordChar c = true)
    (hseg : seg = [] ∨ (∃ c0 rest0, seg = c0 :: rest0 ∧ isWsChar c0 = true ∧
      rest0 ≠ [] ∧ '}' ∉ seg))
    (hsh : cfg.specialHandlers (String.mk name) = none)
    (hacc : cfg.accessors (String.mk name) = none) :
    substituteVariables cfg (pre ++ str "\x7b\x7b" ++ name ++ seg ++ str "\x7d\x7d" ++ post) data
      = pre ++ str "\x7b\x7b" ++ name ++ seg ++ str "\x7d\x7d" ++ substituteVariables cfg post data := by
  have hblock : ∀ rest : Str, svTryMatch (str "\x7b\x7b" ++ name ++ seg ++ str "\x7d\x7d" ++ rest)
      = some (name, seg, rest) := fun rest => svTryMatch_block hname hword hseg
  have key : ∀ (pre' : Str) (n : Nat), '{' ∉ pre' →
      (pre' ++ (str "\x7b\x7b" ++ name ++ seg ++ str "\x7d\x7d" ++ post)).length < n →
      svFuel cfg data n (pre' ++ (str "\x7b\x7b" ++ name ++ seg ++ str "\x7d\x7d" ++ post))
        = pre' ++ (str "\x7b\x7b" ++ name ++ seg ++ str "\x7d\x7d")
            ++ svFuel cfg data (post.length + 1) post := by
    intro pre'
    induction pre' with
    | nil =>
      intro n _ hn
      cases n with
      | zero => simp at hn
      | succ n' =>
        have hcons : str "\x7b\x7b" ++ name ++ seg ++ str "\x7d\x7d" ++ post
            = '{' :: ('{' :: (name ++ seg ++ str "\x7d\x7d" ++ post)) := by
          simp [braces_eq]
        rw [List.nil_append, hcons]
        have hm : svTryMatch ('{' :: ('{' :: (name ++ seg ++ str "\x7d\x7d" ++ post)))
            = some (name, seg, post) := by
          rw [← hcons]; exact hblock post
        simp only [svFuel, hm]
        rw [svEmit_unknown cfg data hsh hacc]
        have hlen : post.length < n' := by
          rw [hcons] at hn
          simp only [List.length_cons, List.length_append] at hn
          have : 1 ≤ name.length := List.length_pos.mpr hname
          omega
        rw [svFuel_fuel_invariant cfg data n' (post.length + 1) hlen (by omega)]
        simp [hcons]
    | cons c pre'' ih =>
      intro n hpre' hn
      have hc : c ≠ '{' := fun hcc => hpre' (by simp [hcc])
      have hpre'' : '{' ∉ pre'' := fun hmem => hpre' (by simp [hmem])
      cases n with
      | zero => simp at hn
      | succ n' =>
        rw [List.cons_append, svFuel_cons_ne cfg data _ n' hc]
        rw [ih n' hpre'' (by simp at hn ⊢; omega)]
        rfl
  have hfin := key pre ((pre ++ (str "\x7b\x7b" ++ name ++ seg ++ str "\x7d\x7d" ++ post)).length + 1)
    hpre (by omega)
  unfold substituteVariables
  have hassoc : pre ++ str "\x7b\x7b" ++ name ++ seg ++ str "\x7d\x7d" ++ post
      = pre ++ (str "\x7b\x7b" ++ name ++ seg ++ str "\x7d\x7d" ++ post) := by simp
  rw [hassoc, hfin]
  simp

/-- Witness for C9: a concrete unknown reference passes through. -/
theorem unknown_variable_pass_through_witness :
    substituteVariables letterboxdEngine
        (str "a: " ++ str "\x7b\x7b" ++ str "nope" ++ [] ++ str "\x7d\x7d" ++ str "B") entryA
      = str "a: " ++ str "\x7b\x7b" ++ str "nope" ++ [] ++ str "\x7d\x7d"
          ++ substituteVariables letterboxdEngine (str "B") entryA :=
  unknown_variable_pass_through letterboxdEngine entryA (str "a: ") (str "nope") [] (str "B")
    (by decide) (by decide) (by decide) (Or.inl rfl) rfl rfl

/-- The accumulate-if loop is the filter. -/
theorem foldl_accum_filter {α : Type} (p : α → Bool) :
    ∀ (l acc : List α),
      l.foldl (fun acc note => if p note then acc ++ [note] else acc) acc = acc ++ l.filter p := by
  intro l
  induction l with
  | nil => intro acc; simp
  | cons x xs ih =>
    intro acc
    by_cases hx : p x
    · simp only [List.foldl_cons, if_pos hx, List.filter_cons_of_pos hx]
      rw [ih]
      simp
    · simp only [List.foldl_cons, if_neg hx, List.filter_cons_of_neg (by simpa using hx)]
      exact ih acc

/-- C6: `findMatchingNote` returns no match when the accumulated match set
is empty, the unique matching note when exactly one note matches, and
otherwise fails with the ambiguity message listing exactly the filenames of
the matching notes in order; in particular, with one note matching by
identifier and another by filename pattern plus normalized title, the error
lists exactly those two filenames. -/
theorem entry_matching_outcome :
    (∀ (entry : LetterboxdEntry) (notes : List ExistingNote) (ftest : Str → Bool)
        (settings : LetterboxdSettings),
      findMatchingNote entry notes ftest settings =
        match notes.filter
          (noteMatches entry (generateFilename settings.filenameTemplate entry) ftest) with
        | [] => Except.ok none
        | [n] => Except.ok (some n)
        | n1 :: n2 :: t =>
          Except.error (ambiguousMessage entry ((n1 :: n2 :: t).map (fun m => m.basename)))) ∧
    (guidMatches entryA noteByGuid = true ∧
     guidMatches entryA noteByTitle = false ∧
     noteMatches entryA (generateFilename settingsA.filenameTemplate entryA)
        (filenameTemplateToRegexTest settingsA.filenameTemplate) noteByTitle = true ∧
     findMatchingNote entryA [noteByGuid, noteByTitle]
        (filenameTemplateToRegexTest settingsA.filenameTemplate) settingsA
      = Except.error (ambiguousMessage entryA [noteByGuid.basename, noteByTitle.basename])) := by
  constructor
  · intro entry notes ftest settings
    unfold findMatchingNote
    simp only []
    rw [foldl_accum_filter]
    simp only [List.nil_append]
    cases hf : notes.filter
        (noteMatches entry (generateFilename settings.filenameTemplate entry) ftest) with
    | nil => rfl
    | cons n1 rest =>
      cases rest with
      | nil => rfl
      | cons n2 t =>
        rw [if_neg (by simp), if_pos (by simp only [List.length_cons]; omega)]
  · exact ⟨by decide, by decide, by decide, by decide⟩

/-- The error-collecting loop of `validateCSVImport` is a `filterMap`. -/
theorem foldl_collect_errors (notes : List ExistingNote) (ftest : Str → Bool)
    (settings : LetterboxdSettings) :
    ∀ (l : List LetterboxdEntry) (acc : List Str),
      l.foldl (fun errors entry => match findMatchingNote entry notes ftest settings with
        | .error m => errors ++ [m]
        | .ok _ => errors) acc
      = acc ++ l.filterMap (fun e => match findMatchingNote e notes ftest settings with
          | .error m => some m
          | .ok _ => none) := by
  intro l
  induction l with
  | nil => intro acc; simp
  | cons x xs ih =>
    intro acc
    cases hx : findMatchingNote x notes ftest settings with
    | error m =>
      simp only [List.foldl_cons, hx, List.filterMap_cons]
      rw [ih]
      simp
    | ok v =>
      simp only [List.foldl_cons, hx, List.filterMap_cons]
      exact ih acc

/-- C5: the validation pass visits every record and collects exactly the
ambiguity messages of the records whose match is ambiguous, in input order;
and whenever it collects at least one such message, the whole batch
produces no storage mutation at all and reports exactly those messages. -/
theorem validate_then_apply :
    (∀ (entries : List LetterboxdEntry) (notes : List ExistingNote) (ftest : Str → Bool)
        (settings : LetterboxdSettings),
      validateCSVImport entries notes ftest settings
        = entries.filterMap (fun e =>
            match findMatchingNote e notes ftest settings with
            | .error m => some m
            | .ok _ => none)) ∧
    (∀ (entries : List LetterboxdEntry) (notes : List ExistingNote)
        (tmdbIds vaultPaths : List Str) (settings : LetterboxdSettings),
      validateCSVImport entries notes
          (filenameTemplateToRegexTest settings.filenameTemplate) settings ≠ [] →
      (importFromCSVCore entries notes tmdbIds vaultPaths settings).2 = [] ∧
      (importFromCSVCore entries notes tmdbIds vaultPaths settings).1
        = { errors := validateCSVImport entries notes
              (filenameTemplateToRegexTest settings.filenameTemplate) settings }) := by
  constructor
  · intro entries notes ftest settings
    unfold validateCSVImport
    rw [foldl_collect_errors notes ftest settings]
    simp
  · intro entries notes tmdbIds vaultPaths settings hne
    unfold importFromCSVCore
    rw [if_pos (by simpa [List.isEmpty_iff] using hne)]
    exact ⟨rfl, rfl⟩

/-- Witness for C5: one record that matches two notes yields a validation
error and an empty write list. -/
theorem validate_then_apply_witness :
    validateCSVImport [entryA] [noteByGuid, noteByTitle]
        (filenameTemplateToRegexTest settingsA.filenameTemplate) settingsA ≠ [] ∧
    (importFromCSVCore [entryA] [noteByGuid, noteByTitle] [] [] settingsA).2 = [] :=
  ⟨by decide,
    (validate_then_apply.2 [entryA] [noteByGuid, noteByTitle] [] [] settingsA (by decide)).1⟩

/-- `splitNl` never returns an empty list. -/
theorem splitNl_ne_nil : ∀ s : Str, splitNl s ≠ [] := by
  intro s
  induction s with
  | nil => simp [splitNl]
  | cons c cs ih =>
    simp only [splitNl]
    split
    · simp
    · cases h : splitNl cs with
      | nil => simp
      | cons hd tl => simp

/-- Joining the split lines recovers the string. -/
theorem joinNl_splitNl : ∀ s : Str, joinNl (splitNl s) = s := by
  intro s
  induction s with
  | nil => rfl
  | cons c cs ih =>
    simp only [splitNl]
    split
    · rename_i hc
      subst hc
      cases h : splitNl cs with
      | nil => exact absurd h (splitNl_ne_nil cs)
      | cons hd tl =>
        rw [h] at ih
        simp only [joinNl, List.nil_append]
        rw [ih]
    · rename_i hc
      cases h : splitNl cs with
      | nil => exact absurd h (splitNl_ne_nil cs)
      | cons hd tl =>
        rw [h] at ih
        cases tl with
        | nil =>
          simp only [joinNl] at ih ⊢
          rw [ih]
        | cons t1 t2 =>
          simp only [joinNl, List.cons_append] at ih ⊢
          rw [ih]

/-- Every character of a split line occurs in the string. -/
theorem splitNl_mem_subset : ∀ {s : Str} {ln : Str}, ln ∈ splitNl s → ∀ c ∈ ln, c ∈ s := by
  intro s
  induction s with
  | nil =>
    intro ln hln c hc
    simp [splitNl] at hln
    subst hln
    cases hc
  | cons d ds ih =>
    intro ln hln c hc
    simp only [splitNl] at hln
    split at hln
    · rcases List.mem_cons.mp hln with rfl | hmem
      · cases hc
      · exact List.mem_cons_of_mem _ (ih hmem c hc)
    · cases h : splitNl ds with
      | nil => exact absurd h (splitNl_ne_nil ds)
      | cons hd tl =>
        rw [h] at hln
        rcases List.mem_cons.mp hln with rfl | hmem
        · rcases List.mem_cons.mp hc with rfl | hc'
          · simp
          · exact List.mem_cons_of_mem _ (ih (h ▸ List.mem_cons_self hd tl) c hc')
        · exact List.mem_cons_of_mem _ (ih (h ▸ List.mem_cons_of_mem hd hmem) c hc)

/-- No split line contains a newline. -/
theorem splitNl_mem_no_nl : ∀ {s : Str} {ln : Str}, ln ∈ splitNl s → '\n' ∉ ln := by
  intro s
  induction s with
  | nil =>
    intro ln hln
    simp [splitNl] at hln
    subst hln
    simp
  | cons d ds ih =>
    intro ln hln
    simp only [splitNl] at hln
    split at hln
    · rcases List.mem_cons.mp hln with rfl | hmem
      · simp
      · exact ih hmem
    · rename_i hd'
      cases h : splitNl ds with
      | nil => exact absurd h (splitNl_ne_nil ds)
      | cons hd tl =>
        rw [h] at hln
        rcases List.mem_cons.mp hln with rfl | hmem
        · intro hmm
          rcases List.mem_cons.mp hmm with rfl | hmm'
          · exact hd' rfl
          · exact ih (h ▸ List.mem_cons_self hd tl) hmm'
        · exact ih (h ▸ List.mem_cons_of_mem hd hmem)

/-- `joinNl` on a cons with a non-empty tail. -/
theorem joinNl_cons {l : Str} {ls : List Str} (h : ls ≠ []) :
    joinNl (l :: ls) = l ++ '\n' :: joinNl ls := by
  cases ls with
  | nil => exact absurd rfl h
  | cons a t => rfl

/-- `splitNl` of a newline-free string. -/
theorem splitNl_no_nl : ∀ {s : Str}, '\n' ∉ s → splitNl s = [s] := by
  intro s
  induction s with
  | nil => intro; rfl
  | cons c cs ih =>
    intro h
    have hc : ¬ c = '\n' := fun hcc => h (by simp [hcc])
    have hcs : '\n' ∉ cs := fun hmem => h (by simp [hmem])
    simp only [splitNl, if_neg hc, ih hcs]

/-- One step of `splitNl` on a non-newline head. -/
theorem splitNl_cons_ne {c : Char} (cs : Str) (hc : ¬ c = '\n') :
    splitNl (c :: cs) = match splitNl cs with | [] => [[c]] | h :: t => (c :: h) :: t := by
  simp [splitNl, hc]

/-- `splitNl` across an explicit newline after a newline-free prefix. -/
theorem splitNl_append_nl : ∀ {l : Str} (rest : Str), '\n' ∉ l →
    splitNl (l ++ '\n' :: rest) = l :: splitNl rest := by
  intro l
  induction l with
  | nil => intro rest _; simp [splitNl]
  | cons c l' ih =>
    intro rest h
    have hc : ¬ c = '\n' := fun hcc => h (by simp [hcc])
    have hl' : '\n' ∉ l' := fun hmem => h (by simp [hmem])
    rw [List.cons_append, splitNl_cons_ne _ hc, ih rest hl']

/-- `splitNl` inverts `joinNl` on non-empty lists of newline-free lines. -/
theorem splitNl_joinNl : ∀ {L : List Str}, L ≠ [] → (∀ ln ∈ L, '\n' ∉ ln) →
    splitNl (joinNl L) = L := by
  intro L
  induction L with
  | nil => intro h; exact absurd rfl h
  | cons l ls ih =>
    intro _ hno
    cases ls with
    | nil => exact splitNl_no_nl (hno l (by simp))
    | cons a t =>
      rw [joinNl_cons (by simp)]
      rw [splitNl_append_nl _ (hno l (by simp))]
      rw [ih (by simp) (fun ln hln => hno ln (List.mem_cons_of_mem _ hln))]

/-- `takeWhile` ignores the second part when the first contains a failing
element. -/
theorem takeWhile_append_of_exists {p : Char → Bool} : ∀ {xs : List Char} (ys : List Char),
    (∃ x ∈ xs, p x = false) → (xs ++ ys).takeWhile p = xs.takeWhile p := by
  intro xs
  induction xs with
  | nil => intro ys h; simp at h
  | cons x xs' ih =>
    intro ys h
    by_cases hx : p x
    · simp only [List.cons_append, List.takeWhile_cons, hx]
      obtain ⟨w, hw, hpw⟩ := h
      rcases List.mem_cons.mp hw with rfl | hw'
      · rw [hx] at hpw; cases hpw
      · rw [ih ys ⟨w, hw', hpw⟩]
    · simp only [List.cons_append, List.takeWhile_cons]
      rw [Bool.not_eq_true] at hx
      simp [hx]

/-- `dropWhile` distributes over the append when the first part contains a
failing element. -/
theorem dropWhile_append_of_exists {p : Char → Bool} : ∀ {xs : List Char} (ys : List Char),
    (∃ x ∈ xs, p x = false) → (xs ++ ys).dropWhile p = xs.dropWhile p ++ ys := by
  intro xs
  induction xs with
  | nil => intro ys h; simp at h
  | cons x xs' ih =>
    intro ys h
    by_cases hx : p x
    · simp only [List.cons_append, List.dropWhile_cons, hx, if_true]
      obtain ⟨w, hw, hpw⟩ := h
      rcases List.mem_cons.mp hw with rfl | hw'
      · rw [hx] at hpw; cases hpw
      · simpa using ih ys ⟨w, hw', hpw⟩
    · rw [Bool.not_eq_true] at hx
      simp [List.dropWhile_cons, hx]

/-- `dropWhile` over an all-satisfying part followed by a failing element. -/
theorem dropWhile_append_cons {p : Char → Bool} : ∀ {xs : List Char} {y : Char}
    (ys : List Char), (∀ c ∈ xs, p c = true) → p y = false →
    (xs ++ y :: ys).dropWhile p = y :: ys := by
  intro xs
  induction xs with
  | nil => intro y ys _ hy; simp [List.dropWhile_cons, hy]
  | cons x xs' ih =>
    intro y ys hall hy
    have hx : p x = true := hall x (by simp)
    simp only [List.cons_append, List.dropWhile_cons, hx, if_true]
    exact ih ys (fun c hc => hall c (by simp [hc])) hy

/-- A position not starting with `{` never matches the conditional pattern. -/
theorem pcTryMatch_cons_ne {c : Char} (cs : Str) (hc : c ≠ '{') :
    pcTryMatch (c :: cs) = none := by
  unfold pcTryMatch
  rw [if_neg]
  simp only [str, List.isPrefixOf, Bool.and_eq_true, beq_iff_eq]
  exact fun h => hc h.1.symm

/-- Conditional scanner step on a non-`{` character. -/
theorem pcFuel_cons_ne {T : Type} (cfg : TemplateEngineConfig T) (data : T) {c : Char}
    (cs : Str) (n : Nat) (hc : c ≠ '{') :
    pcFuel cfg data (n + 1) (c :: cs) = c :: pcFuel cfg data n cs := by
  simp only [pcFuel]
  rw [pcTryMatch_cons_ne cs hc]

/-- A successful conditional match consumes at least the `{{#if` token. -/
theorem pcTryMatch_some_length {s name content rest : Str}
    (h : pcTryMatch s = some (name, content, rest)) : rest.length < s.length := by
  unfold pcTryMatch at h
  simp only [] at h
  split at h
  · rename_i hp
    have hs5 : 5 ≤ s.length := by
      have := (List.isPrefixOf_iff_prefix.mp hp).length_le
      simpa [str] using this
    split at h
    · cases h
    · split at h
      · cases h
      · split at h
        · rename_i hbr
          split at h
          · rename_i content' rest' hsf
            simp only [Option.some.injEq, Prod.mk.injEq] at h
            obtain ⟨rfl, rfl, rfl⟩ := h
            have hsound := splitFirst_sound hsf
            have hlen := congrArg List.length hsound
            simp only [List.length_append, List.length_drop] at hlen
            omega
          · cases h
        · cases h
  · cases h

/-- The conditional scanner is fuel-independent above the input length. -/
theorem pcFuel_fuel_invariant {T : Type} (cfg : TemplateEngineConfig T) (data : T) :
    ∀ (n m : Nat) {s : Str}, s.length < n → s.length < m →
      pcFuel cfg data n s = pcFuel cfg data m s := by
  intro n
  induction n with
  | zero => intro m s hn _; omega
  | succ n' ih =>
    intro m s hn hm
    cases m with
    | zero => omega
    | succ m' =>
      cases s with
      | nil => rfl
      | cons c cs =>
        unfold pcFuel
        cases hmatch : pcTryMatch (c :: cs) with
        | none =>
          have hcs : cs.length < n' := by simp at hn; omega
          have hcs' : cs.length < m' := by simp at hm; omega
          rw [ih m' hcs hcs']
        | some p =>
          obtain ⟨name, content, rest⟩ := p
          have hr := pcTryMatch_some_length hmatch
          simp only [List.length_cons] at hn hm hr
          have h1 : rest.length < n' := by omega
          have h2 : rest.length < m' := by omega
          simp only []
          rw [ih m' h1 h2]

/-- The conditional pass copies a brace-free prefix verbatim. -/
theorem processConditionals_append {T : Type} (cfg : TemplateEngineConfig T) (data : T)
    {pre : Str} (rest : Str) (hpre : '{' ∉ pre) :
    processConditionals cfg (pre ++ rest) data = pre ++ processConditionals cfg rest data := by
  have key : ∀ (pre' : Str) (n : Nat), '{' ∉ pre' → (pre' ++ rest).length < n →
      pcFuel cfg data n (pre' ++ rest) = pre' ++ pcFuel cfg data (rest.length + 1) rest := by
    intro pre'
    induction pre' with
    | nil =>
      intro n _ hn
      simp only [List.nil_append] at hn ⊢
      exact pcFuel_fuel_invariant cfg data n (rest.length + 1) hn (by omega)
    | cons c pre'' ih =>
      intro n hpre' hn
      have hc : c ≠ '{' := fun hcc => hpre' (by simp [hcc])
      have hpre'' : '{' ∉ pre'' := fun hmem => hpre' (by simp [hmem])
      cases n with
      | zero => simp at hn
      | succ n' =>
        rw [List.cons_append, pcFuel_cons_ne cfg data _ n' hc]
        rw [ih n' hpre'' (by simp at hn ⊢; omega)]
        rfl
  unfold processConditionals
  exact key pre ((pre ++ rest).length + 1) hpre (by omega)

/-- The substitution pass copies a brace-free prefix verbatim. -/
theorem substituteVariables_append {T : Type} (cfg : TemplateEngineConfig T) (data : T)
    {pre : Str} (rest : Str) (hpre : '{' ∉ pre) :
    substituteVariables cfg (pre ++ rest) data = pre ++ substituteVariables cfg rest data := by
  have key : ∀ (pre' : Str) (n : Nat), '{' ∉ pre' → (pre' ++ rest).length < n →
      svFuel cfg data n (pre' ++ rest) = pre' ++ svFuel cfg data (rest.length + 1) rest := by
    intro pre'
    induction pre' with
    | nil =>
      intro n _ hn
      simp only [List.nil_append] at hn ⊢
      exact svFuel_fuel_invariant cfg data n (rest.length + 1) hn (by omega)
    | cons c pre'' ih =>
      intro n hpre' hn
      have hc : c ≠ '{' := fun hcc => hpre' (by simp [hcc])
      have hpre'' : '{' ∉ pre'' := fun hmem => hpre' (by simp [hmem])
      cases n with
      | zero => simp at hn
      | succ n' =>
        rw [List.cons_append, svFuel_cons_ne cfg data _ n' hc]
        rw [ih n' hpre'' (by simp at hn ⊢; omega)]
        rfl
  unfold substituteVariables
  exact key pre ((pre ++ rest).length + 1) hpre (by omega)

/-- `renderTemplate` copies a brace-free prefix verbatim. -/
theorem renderTemplate_append {pre : Str} (rest : Str) (e : LetterboxdEntry)
    (hpre : '{' ∉ pre) :
    renderTemplate (pre ++ rest) e = pre ++ renderTemplate rest e := by
  unfold renderTemplate engineRender
  rw [processConditionals_append letterboxdEngine e rest hpre]
  rw [substituteVariables_append letterboxdEngine e (processConditionals letterboxdEngine rest e) hpre]


/-- One-step unfolding of `matchKeyAux`. -/
theorem matchKeyAux_step (k fm : Str) (flag : Bool) :
    matchKeyAux k fm flag =
      (if flag && (k ++ [':']).isPrefixOf fm then
        some ([], (fm.drop (k.length + 1)).takeWhile isWsChar,
          (((fm.drop (k.length + 1)).dropWhile isWsChar).takeWhile (fun c => ¬ isTermChar c)),
          (((fm.drop (k.length + 1)).dropWhile isWsChar).dropWhile (fun c => ¬ isTermChar c)))
      else
        match fm with
        | [] => none
        | c :: cs => (matchKeyAux k cs (isTermChar c)).map (fun r => (c :: r.1, r.2))) := by
  rw [matchKeyAux.eq_def]

/-- `matchKeyAux` on the empty string with the guard down. -/
theorem matchKeyAux_nil (k : Str) (flag : Bool)
    (h : ¬ ((flag && (k ++ [':']).isPrefixOf ([] : Str)) = true)) :
    matchKeyAux k [] flag = none := by
  rw [matchKeyAux_step, if_neg h]

/-- `matchKeyAux` steps over one character when the guard fails. -/
theorem matchKeyAux_cons (k : Str) (c : Char) (cs : Str) (flag : Bool)
    (h : ¬ ((flag && (k ++ [':']).isPrefixOf (c :: cs)) = true)) :
    matchKeyAux k (c :: cs) flag
      = (matchKeyAux k cs (isTermChar c)).map (fun r => (c :: r.1, r.2)) := by
  rw [matchKeyAux_step, if_neg h]

/-- `matchKeyAux` fires when the guard holds. -/
theorem matchKeyAux_fire (k fm : Str) (flag : Bool)
    (h : (flag && (k ++ [':']).isPrefixOf fm) = true) :
    matchKeyAux k fm flag =
      some ([], (fm.drop (k.length + 1)).takeWhile isWsChar,
        (((fm.drop (k.length + 1)).dropWhile isWsChar).takeWhile (fun c => ¬ isTermChar c)),
        (((fm.drop (k.length + 1)).dropWhile isWsChar).dropWhile (fun c => ¬ isTermChar c))) := by
  rw [matchKeyAux_step, if_pos h]

/-- A newline-free pattern failing on a line also fails on the line
extended past its newline. -/
theorem isPrefixOf_append_nl_false {p : Str} : ∀ {ln : Str} (rest : Str), '\n' ∉ p →
    p.isPrefixOf ln = false → p.isPrefixOf (ln ++ '\n' :: rest) = false := by
  induction p with
  | nil => intro ln rest _ hf; simp [List.isPrefixOf] at hf
  | cons a p' ih =>
    intro ln rest hnp hf
    have ha : a ≠ '\n' := fun hcc => hnp (by simp [hcc])
    cases ln with
    | nil =>
      simp only [List.nil_append, List.isPrefixOf, Bool.and_eq_false_iff]
      left
      simp [beq_iff_eq, ha]
    | cons b ln' =>
      simp only [List.isPrefixOf, Bool.and_eq_false_iff] at hf
      simp only [List.cons_append, List.isPrefixOf, Bool.and_eq_false_iff]
      rcases hf with hab | hpre
      · exact Or.inl hab
      · exact Or.inr (ih rest (fun hmem => hnp (by simp [hmem])) hpre)

/-- Scanning a terminator-free line never matches. -/
theorem matchKeyAux_line_none {k : Str} : ∀ {ln : Str} (flag : Bool), '\n' ∉ ln → '\r' ∉ ln →
    (flag = true → (k ++ [':']).isPrefixOf ln = false) → matchKeyAux k ln flag = none := by
  intro ln
  induction ln with
  | nil =>
    intro flag _ _ _
    exact matchKeyAux_nil k flag (by
      intro hh
      rw [Bool.and_eq_true] at hh
      have := List.prefix_nil.mp (List.isPrefixOf_iff_prefix.mp hh.2)
      simp at this)
  | cons c ln' ih =>
    intro flag hnl hcr hflag
    have hterm : isTermChar c = false := by
      have h1 : c ≠ '\n' := fun hcc => hnl (by simp [hcc])
      have h2 : c ≠ '\r' := fun hcc => hcr (by simp [hcc])
      simp [isTermChar, h1, h2]
    rw [matchKeyAux_cons k c ln' flag (by
      intro hh
      rw [Bool.and_eq_true] at hh
      rw [hflag hh.1] at hh
      cases hh.2)]
    rw [ih (isTermChar c) (fun hmem => hnl (by simp [hmem]))
      (fun hmem => hcr (by simp [hmem])) (by rw [hterm]; intro hcon; cases hcon)]
    rfl

/-- Scanning with the line-start flag down passes a whole line and resumes
at the following line start. -/
theorem matchKeyAux_scan_false {k : Str} : ∀ {ln : Str} (rest : Str), '\n' ∉ ln → '\r' ∉ ln →
    matchKeyAux k (ln ++ '\n' :: rest) false
      = (matchKeyAux k rest true).map (fun r => (ln ++ '\n' :: r.1, r.2)) := by
  intro ln
  induction ln with
  | nil =>
    intro rest _ _
    rw [List.nil_append]
    rw [matchKeyAux_cons k '\n' rest false (by simp)]
    have : isTermChar '\n' = true := by decide
    rw [this]
    rfl
  | cons c ln' ih =>
    intro rest hnl hcr
    have hterm : isTermChar c = false := by
      have h1 : c ≠ '\n' := fun hcc => hnl (by simp [hcc])
      have h2 : c ≠ '\r' := fun hcc => hcr (by simp [hcc])
      simp [isTermChar, h1, h2]
    rw [List.cons_append]
    rw [matchKeyAux_cons k c (ln' ++ '\n' :: rest) false (by simp)]
    rw [hterm]
    rw [ih rest (fun hmem => hnl (by simp [hmem])) (fun hmem => hcr (by simp [hmem]))]
    rw [Option.map_map]
    rfl

/-- Scanning from a line start across a non-matching line. -/
theorem matchKeyAux_scan_true {k : Str} {ln : Str} (rest : Str) (hk : '\n' ∉ k)
    (hnl : '\n' ∉ ln) (hcr : '\r' ∉ ln)
    (hpfx : (k ++ [':']).isPrefixOf ln = false) :
    matchKeyAux k (ln ++ '\n' :: rest) true
      = (matchKeyAux k rest true).map (fun r => (ln ++ '\n' :: r.1, r.2)) := by
  have hnp : '\n' ∉ k ++ [':'] := by
    intro hmem
    rcases List.mem_append.mp hmem with h | h
    · exact hk h
    · simp at h
  have hfull := isPrefixOf_append_nl_false rest hnp hpfx
  cases ln with
  | nil =>
    rw [List.nil_append] at hfull ⊢
    rw [matchKeyAux_cons k '\n' rest true (by rw [hfull]; simp)]
    have : isTermChar '\n' = true := by decide
    rw [this]
    rfl
  | cons c ln' =>
    have hterm : isTermChar c = false := by
      have h1 : c ≠ '\n' := fun hcc => hnl (by simp [hcc])
      have h2 : c ≠ '\r' := fun hcc => hcr (by simp [hcc])
      simp [isTermChar, h1, h2]
    rw [List.cons_append]
    rw [matchKeyAux_cons k c (ln' ++ '\n' :: rest) true (by
      rw [show c :: (ln' ++ '\n' :: rest) = (c :: ln') ++ '\n' :: rest from rfl, hfull]
      simp)]
    rw [hterm]
    rw [matchKeyAux_scan_false rest (fun hmem => hnl (by simp [hmem]))
      (fun hmem => hcr (by simp [hmem]))]
    rw [Option.map_map]
    rfl

/-- A prefix of a list is a prefix of any extension. -/
theorem isPrefixOf_append_right {p l : Str} (rest : Str) (h : p.isPrefixOf l = true) :
    p.isPrefixOf (l ++ rest) = true :=
  List.isPrefixOf_iff_prefix.mpr
    ((List.isPrefixOf_iff_prefix.mp h).trans (List.prefix_append l rest))

/-- A witness extraction for the non-whitespace-value condition. -/
theorem any_not_ws_exists {xs : Str} (h : xs.any (fun c => ¬ isWsChar c) = true) :
    ∃ c ∈ xs, isWsChar c = false := by
  rcases List.any_eq_true.mp h with ⟨c, hc, hcp⟩
  refine ⟨c, hc, ?_⟩
  simp only [decide_eq_true_eq] at hcp
  exact Bool.not_eq_true _ ▸ hcp

/-- Characters of a terminator-free line are not line terminators. -/
theorem line_no_term {ln : Str} (hnl : '\n' ∉ ln) (hcr : '\r' ∉ ln) :
    ∀ c ∈ ln, isTermChar c = false := by
  intro c hc
  have h1 : c ≠ '\n' := fun hcc => hnl (hcc ▸ hc)
  have h2 : c ≠ '\r' := fun hcc => hcr (hcc ▸ hc)
  simp [isTermChar, h1, h2]

/-- Within a terminator-free line the `(.*)` capture runs to the end. -/
theorem capture_in_line (k : Str) {ln : Str} (hnl : '\n' ∉ ln) (hcr : '\r' ∉ ln) :
    ((ln.drop (k.length + 1)).dropWhile isWsChar).takeWhile (fun c => ¬ isTermChar c)
      = lineCapture k ln ∧
    ((ln.drop (k.length + 1)).dropWhile isWsChar).dropWhile (fun c => ¬ isTermChar c) = [] := by
  have hsub : ∀ c ∈ (ln.drop (k.length + 1)).dropWhile isWsChar, c ∈ ln := by
    intro c hc
    exact List.drop_subset _ ln ((List.dropWhile_sublist _).subset hc)
  have hall : ∀ c ∈ (ln.drop (k.length + 1)).dropWhile isWsChar,
      (fun c => (¬ isTermChar c : Bool)) c = true := by
    intro c hc
    simp [line_no_term hnl hcr c (hsub c hc)]
  exact ⟨List.takeWhile_eq_self_iff.mpr hall, List.dropWhile_eq_nil_iff.mpr hall⟩

/-- Setting a list element to its current value is a no-op. -/
theorem set_of_get {α : Type} : ∀ {l : List α} {j : Nat} {a : α},
    l.get? j = some a → l.set j a = l := by
  intro l
  induction l with
  | nil => intro j a h; cases h
  | cons x xs ih =>
    intro j a h
    cases j with
    | zero =>
      injection h with h
      subst h
      rfl
    | succ j' =>
      show x :: xs.set j' a = x :: xs
      rw [ih h]

/-- The line found by `firstPfxIdx` carries the key prefix. -/
theorem firstPfxIdx_get {k : Str} : ∀ {L : List Str} {j : Nat}, firstPfxIdx k L = some j →
    ∃ ln, L.get? j = some ln ∧ (k ++ [':']).isPrefixOf ln = true := by
  intro L
  induction L with
  | nil => intro j h; simp [firstPfxIdx] at h
  | cons ln L' ih =>
    intro j h
    simp only [firstPfxIdx] at h
    cases hp : (k ++ [':']).isPrefixOf ln with
    | true =>
      rw [hp] at h
      simp at h
      subst h
      exact ⟨ln, rfl, hp⟩
    | false =>
      rw [hp] at h
      simp only [Bool.false_eq_true, if_false, Option.map_eq_some'] at h
      obtain ⟨j', hf, hj⟩ := h
      subst hj
      obtain ⟨l, hl, hpl⟩ := ih hf
      exact ⟨l, hl, hpl⟩

/-- `firstPfxIdx` only depends on the per-index matching status. -/
theorem firstPfxIdx_congr {k : Str} : ∀ {L1 L2 : List Str}, L1.length = L2.length →
    (∀ i l1 l2, L1.get? i = some l1 → L2.get? i = some l2 →
      (k ++ [':']).isPrefixOf l1 = (k ++ [':']).isPrefixOf l2) →
    firstPfxIdx k L1 = firstPfxIdx k L2 := by
  intro L1
  induction L1 with
  | nil =>
    intro L2 hlen _
    cases L2 with
    | nil => rfl
    | cons _ _ => simp at hlen
  | cons l1 M1 ih =>
    intro L2 hlen hpt
    cases L2 with
    | nil => simp at hlen
    | cons l2 M2 =>
      have h0 := hpt 0 l1 l2 rfl rfl
      simp only [firstPfxIdx, h0]
      rw [ih (by simpa using hlen) (fun i a b ha hb => hpt (i + 1) a b ha hb)]

/-- When no line carries the key prefix, the multiline regex fails on the
joined text. -/
theorem matchKey_join_none {k : Str} (hk : '\n' ∉ k) : ∀ {L : List Str},
    (∀ ln ∈ L, '\n' ∉ ln) → (∀ ln ∈ L, '\r' ∉ ln) →
    firstPfxIdx k L = none → matchKey k (joinNl L) = none := by
  intro L
  induction L with
  | nil =>
    intro _ _ _
    exact matchKeyAux_nil k true (by
      intro hh
      rw [Bool.and_eq_true] at hh
      have := List.prefix_nil.mp (List.isPrefixOf_iff_prefix.mp hh.2)
      simp at this)
  | cons ln L' ih =>
    intro hnl hcr hfi
    simp only [firstPfxIdx] at hfi
    cases hp : (k ++ [':']).isPrefixOf ln with
    | true => rw [hp] at hfi; simp at hfi
    | false =>
      rw [hp] at hfi
      simp only [Bool.false_eq_true, if_false, Option.map_eq_none'] at hfi
      cases L' with
      | nil =>
        show matchKeyAux k ln true = none
        exact matchKeyAux_line_none true (hnl ln (by simp)) (hcr ln (by simp))
          (fun _ => hp)
      | cons l2 t =>
        show matchKeyAux k (joinNl (ln :: l2 :: t)) true = none
        rw [joinNl_cons (by simp)]
        rw [matchKeyAux_scan_true (joinNl (l2 :: t)) hk (hnl ln (by simp))
          (hcr ln (by simp)) hp]
        have hmk' : matchKeyAux k (joinNl (l2 :: t)) true = none :=
          ih (fun l hl => hnl l (by simp [hl])) (fun l hl => hcr l (by simp [hl])) hfi
        rw [hmk']
        rfl

/-- When `firstPfxIdx` finds a line, the multiline regex matches within that
line, captures its value, and replacing the match rewrites exactly that
line. -/
theorem matchKey_join_some {k : Str} (hk : '\n' ∉ k) : ∀ {L : List Str} {j : Nat},
    (∀ ln ∈ L, '\n' ∉ ln) → (∀ ln ∈ L, '\r' ∉ ln) →
    (∀ ln ∈ L, (k ++ [':']).isPrefixOf ln = true →
      (ln.drop (k.length + 1)).any (fun c => ¬ isWsChar c) = true) →
    firstPfxIdx k L = some j →
    ∃ b w a ln, L.get? j = some ln ∧ (k ++ [':']).isPrefixOf ln = true ∧
      matchKey k (joinNl L) = some (b, w, lineCapture k ln, a) ∧
      ∀ r' : Str, b ++ r' ++ a = joinNl (L.set j r') := by
  intro L
  induction L with
  | nil => intro j _ _ _ hfi; simp [firstPfxIdx] at hfi
  | cons ln L' ih =>
    intro j hnl hcr hval hfi
    simp only [firstPfxIdx] at hfi
    cases hp : (k ++ [':']).isPrefixOf ln with
    | true =>
      rw [hp] at hfi
      simp at hfi
      subst hfi
      have hlnl : '\n' ∉ ln := hnl ln (by simp)
      have hlcr : '\r' ∉ ln := hcr ln (by simp)
      have hcap := capture_in_line k hlnl hlcr
      cases L' with
      | nil =>
        refine ⟨[], (ln.drop (k.length + 1)).takeWhile isWsChar, [], ln, rfl, hp, ?_, ?_⟩
        · show matchKeyAux k ln true = _
          rw [matchKeyAux_fire k ln true (by rw [hp]; rfl)]
          rw [hcap.1, hcap.2]
        · intro r'
          show [] ++ r' ++ [] = joinNl [r']
          simp [joinNl]
      | cons l2 t =>
        have hv := hval ln (by simp) hp
        obtain ⟨cw, hcw, hcwf⟩ := any_not_ws_exists hv
        have hwwit : ∃ c ∈ ln.drop (k.length + 1), isWsChar c = false := ⟨cw, hcw, hcwf⟩
        have hlen : k.length + 1 ≤ ln.length := by
          have hle := (List.isPrefixOf_iff_prefix.mp hp).length_le
          simpa using hle
        refine ⟨[], (ln.drop (k.length + 1)).takeWhile isWsChar,
          '\n' :: joinNl (l2 :: t), ln, rfl, hp, ?_, ?_⟩
        · show matchKeyAux k (joinNl (ln :: l2 :: t)) true = _
          rw [joinNl_cons (by simp)]
          rw [matchKeyAux_fire k _ true (by
            rw [Bool.true_and]
            exact isPrefixOf_append_right _ hp)]
          rw [List.drop_append_of_le_length hlen]
          rw [takeWhile_append_of_exists _ hwwit]
          rw [dropWhile_append_of_exists _ hwwit]
          have hntc : ∀ c ∈ (ln.drop (k.length + 1)).dropWhile isWsChar,
              (fun c => (¬ isTermChar c : Bool)) c = true := by
            intro c hc
            have hcln : c ∈ ln :=
              List.drop_subset _ ln ((List.dropWhile_sublist _).subset hc)
            simp [line_no_term hlnl hlcr c hcln]
          rw [takeWhile_append_cons hntc (by decide)]
          rw [dropWhile_append_cons _ hntc (by decide)]
          rfl
        · intro r'
          show [] ++ r' ++ '\n' :: joinNl (l2 :: t) = joinNl ((ln :: l2 :: t).set 0 r')
          rw [List.nil_append]
          show r' ++ '\n' :: joinNl (l2 :: t) = joinNl (r' :: l2 :: t)
          conv_rhs => rw [joinNl_cons (by simp)]
    | false =>
      rw [hp] at hfi
      simp only [Bool.false_eq_true, if_false, Option.map_eq_some'] at hfi
      obtain ⟨j', hfj, hj⟩ := hfi
      subst hj
      cases L' with
      | nil => simp [firstPfxIdx] at hfj
      | cons l2 t =>
        obtain ⟨b', w', a', lnj, hget, hpj, hmk, hrec⟩ :=
          ih (fun l hl => hnl l (by simp [hl])) (fun l hl => hcr l (by simp [hl]))
            (fun l hl hpl => hval l (by simp [hl]) hpl) hfj
        have hlnl : '\n' ∉ ln := hnl ln (by simp)
        have hlcr : '\r' ∉ ln := hcr ln (by simp)
        refine ⟨ln ++ '\n' :: b', w', a', lnj, hget, hpj, ?_, ?_⟩
        · show matchKeyAux k (joinNl (ln :: l2 :: t)) true = _
          rw [joinNl_cons (by simp)]
          rw [matchKeyAux_scan_true (joinNl (l2 :: t)) hk hlnl hlcr hp]
          have hmk' : matchKeyAux k (joinNl (l2 :: t)) true
              = some (b', w', lineCapture k lnj, a') := hmk
          rw [hmk']
          rfl
        · intro r'
          have hlenset : ((l2 :: t).set j' r').length = (l2 :: t).length :=
            List.length_set _ _ _
          have hne : (l2 :: t).set j' r' ≠ [] := by
            intro hcon
            rw [hcon] at hlenset
            simp at hlenset
          show (ln ++ '\n' :: b') ++ r' ++ a' = joinNl (ln :: (l2 :: t).set j' r')
          rw [joinNl_cons hne]
          rw [← hrec r']
          simp

/-- A `$`-free replacement string expands to itself. -/
theorem expandRepl_no_dollar : ∀ {repl : Str} (b m a c : Str), '$' ∉ repl →
    expandRepl repl b m a c = repl := by
  intro repl
  induction repl with
  | nil => intro b m a c _; rfl
  | cons ch r ih =>
    intro b m a c h
    have hch : ch ≠ '$' := fun hcc => h (by simp [hcc])
    cases r with
    | nil =>
      have step : expandRepl [ch] b m a c
          = if ch = '$' then ['$'] else ch :: expandRepl [] b m a c := rfl
      rw [step, if_neg hch]
      rfl
    | cons d r2 =>
      have step : expandRepl (ch :: d :: r2) b m a c
          = if ch = '$' then
              (if d = '$' then '$' :: expandRepl r2 b m a c
              else if d = '&' then m ++ expandRepl r2 b m a c
              else if d = Char.ofNat 96 then b ++ expandRepl r2 b m a c
              else if d = Char.ofNat 39 then a ++ expandRepl r2 b m a c
              else if d = '1' then c ++ expandRepl r2 b m a c
              else '$' :: d :: expandRepl r2 b m a c)
            else ch :: expandRepl (d :: r2) b m a c := rfl
      rw [step, if_neg hch, ih b m a c (fun hmem => h (by simp [hmem]))]

/-- Template keys never contain a colon. -/
theorem colon_not_mem_lineKey (t : Str) : ':' ∉ lineKey t := by
  intro hmem
  have h1 : ':' ∈ t.takeWhile (fun c => c ≠ ':') := mem_of_mem_jsTrim hmem
  have h2 := List.mem_takeWhile_imp h1
  simp at h2

/-- Two colon-free keys whose `key:` prefixes both match a line coincide. -/
theorem key_prefix_unique {k1 k2 ln : Str} (h1 : ':' ∉ k1) (h2 : ':' ∉ k2)
    (hp1 : (k1 ++ [':']).isPrefixOf ln = true) (hp2 : (k2 ++ [':']).isPrefixOf ln = true) :
    k1 = k2 := by
  have main : ∀ a b : Str, ':' ∉ b → (a ++ [':']) <+: ln → (b ++ [':']) <+: ln →
      a.length ≤ b.length → a = b := by
    intro a b hbc hpa hpb hab
    have hpp : (a ++ [':']) <+: (b ++ [':']) :=
      List.prefix_of_prefix_length_le hpa hpb (by simp [hab])
    rcases Nat.lt_or_ge a.length b.length with hlt | hge
    · exfalso
      have hpb' : (a ++ [':']) <+: b :=
        List.prefix_of_prefix_length_le hpp (List.prefix_append b [':']) (by simp; omega)
      exact hbc (hpb'.subset (by simp))
    · have hlen : a.length = b.length := Nat.le_antisymm hab hge
      have heq : a ++ [':'] = b ++ [':'] := hpp.eq_of_length (by simp [hlen])
      exact List.append_cancel_right heq
  rcases Nat.le_total k1.length k2.length with hle | hle
  · exact main k1 k2 h2 (List.isPrefixOf_iff_prefix.mp hp1)
      (List.isPrefixOf_iff_prefix.mp hp2) hle
  · exact (main k2 k1 h1 (List.isPrefixOf_iff_prefix.mp hp2)
      (List.isPrefixOf_iff_prefix.mp hp1) hle).symm

/-- Splitting the three guards of `activeLine`. -/
theorem activeLine_true_iff {tl : Str} (h : activeLine tl = true) :
    (jsTrim tl).isEmpty = false ∧ (jsTrim tl).contains ':' = true ∧
      ∃ v, findTemplateVarName (jsTrim tl) = some v := by
  simp only [activeLine, Bool.and_eq_true, decide_eq_true_eq] at h
  obtain ⟨⟨hne, hco⟩, hso⟩ := h
  refine ⟨?_, hco, ?_⟩
  · cases hh : (jsTrim tl).isEmpty
    · rfl
    · exact absurd hh hne
  · exact Option.isSome_iff_exists.mp hso

/-- An inactive template line leaves the frontmatter unchanged. -/
theorem mergeLine_inactive {e : LetterboxdEntry} {g tl : Str}
    (h : activeLine tl = false) : mergeLine e g tl = g := by
  by_cases h1 : (jsTrim tl).isEmpty = true
  · simp only [mergeLine]
    rw [if_pos h1]
  · have h1' : (jsTrim tl).isEmpty = false := by
      cases hh : (jsTrim tl).isEmpty
      · rfl
      · exact absurd hh h1
    by_cases h2 : (jsTrim tl).contains ':' = true
    · have h3 : findTemplateVarName (jsTrim tl) = none := by
        cases hh : findTemplateVarName (jsTrim tl) with
        | none => rfl
        | some v =>
          exfalso
          rw [activeLine] at h
          simp only [h1', h2, hh] at h
          simp at h
      simp only [mergeLine]
      rw [if_neg h1, if_neg (not_not_intro h2), h3]
    · simp only [mergeLine]
      rw [if_neg h1, if_pos h2]

/-- An active template line whose key regex finds no match leaves the
frontmatter unchanged. -/
theorem mergeLine_active_nomatch {e : LetterboxdEntry} {g tl : Str}
    (h : activeLine tl = true)
    (hm : matchKey (lineKey (jsTrim tl)) g = none) : mergeLine e g tl = g := by
  obtain ⟨h1, h2, v, hv⟩ := activeLine_true_iff h
  simp only [mergeLine]
  rw [if_neg (by simp [h1]), if_neg (not_not_intro h2)]
  split
  · rfl
  · rename_i varName hvar
    split
    · rfl
    · rename_i b' w' cap' a' hm'
      rw [hm] at hm'
      cases hm'

/-- An active template line on a matched frontmatter: the conditional
replacement step. -/
theorem mergeLine_active_match (e : LetterboxdEntry) {g tl : Str} {b w cap a : Str}
    (h : activeLine tl = true) {v : Str} (hv : findTemplateVarName (jsTrim tl) = some v)
    (hm : matchKey (lineKey (jsTrim tl)) g = some (b, w, cap, a)) :
    mergeLine e g tl =
      (if shouldUpdateValue v (newValueOf (renderTemplate (jsTrim tl) e)) cap then
        b ++ expandRepl (renderTemplate (jsTrim tl) e) b
          (lineKey (jsTrim tl) ++ ':' :: (w ++ cap)) a cap ++ a
      else g) := by
  obtain ⟨h1, h2, v', hv'⟩ := activeLine_true_iff h
  simp only [mergeLine]
  rw [if_neg (by simp [h1]), if_neg (not_not_intro h2)]
  split
  · rename_i hnone
    rw [hv] at hnone
    cases hnone
  · rename_i varName hvar
    rw [hv] at hvar
    injection hvar with hveq
    subst hveq
    split
    · rename_i hmn
      rw [hm] at hmn
      cases hmn
    · rename_i b' w' cap' a' hm'
      rw [hm] at hm'
      simp only [Option.some.injEq, Prod.mk.injEq] at hm'
      obtain ⟨hb, hw, hcap, ha⟩ := hm'
      subst hb
      subst hw
      subst hcap
      subst ha
      rfl

/-- `stepResult` as a plain conditional. -/
theorem stepResult_eq (e : LetterboxdEntry) (tl ln : Str) :
    stepResult e tl ln =
      if shouldUpdateValue ((findTemplateVarName (jsTrim tl)).getD [])
          (newValueOf (renderTemplate (jsTrim tl) e))
          (lineCapture (lineKey (jsTrim tl)) ln) then
        renderTemplate (jsTrim tl) e
      else ln := rfl

/-- `stepResult` returns the rendered line or the input line. -/
theorem stepResult_cases (e : LetterboxdEntry) (tl ln : Str) :
    stepResult e tl ln = renderTemplate (jsTrim tl) e ∨ stepResult e tl ln = ln := by
  rw [stepResult_eq]
  split
  · exact Or.inl rfl
  · exact Or.inr rfl

/-- The key of an active processed line is a processed key. -/
theorem lineKey_mem_templKeys {tlines : List Str} {tl : Str} (h : tl ∈ tlines)
    (hact : activeLine tl = true) : lineKey (jsTrim tl) ∈ templKeys tlines := by
  simp only [templKeys]
  exact List.mem_map_of_mem _ (List.mem_filter.mpr ⟨h, by simp [hact]⟩)

/-- Every processed key is the key of some template line, hence colon-free. -/
theorem templKeys_colon_free {tlines : List Str} {k : Str} (h : k ∈ templKeys tlines) :
    ':' ∉ k := by
  simp only [templKeys, List.mem_map, List.mem_filter] at h
  obtain ⟨l, _, rfl⟩ := h
  exact colon_not_mem_lineKey _

/-- A newline-free template line has a newline-free key. -/
theorem nl_not_mem_lineKey {tl : Str} (h : '\n' ∉ tl) : '\n' ∉ lineKey (jsTrim tl) := by
  intro hc
  exact h (mem_of_mem_jsTrim (( List.takeWhile_prefix _).subset (mem_of_mem_jsTrim hc)))

/-- The rendered line of a well-behaved active template line starts with
its own `key:`. -/
theorem rendered_line_shape {e : LetterboxdEntry} {tl : Str} (hact : activeLine tl = true)
    (hnice : NiceLine e tl) :
    (lineKey (jsTrim tl) ++ [':']).isPrefixOf (renderTemplate (jsTrim tl) e) = true := by
  obtain ⟨_, hpfx, hbr, _, _, _, _, _, _⟩ := hnice hact
  obtain ⟨t', ht'⟩ := List.isPrefixOf_iff_prefix.mp hpfx
  have hren : renderTemplate (jsTrim tl) e
      = (lineKey (jsTrim tl) ++ [':']) ++ renderTemplate t' e := by
    conv_lhs => rw [← ht']
    exact renderTemplate_append t' e (by
      intro hc
      rcases List.mem_append.mp hc with hc' | hc'
      · exact hbr hc'
      · simp at hc')
  rw [hren]
  exact isPrefixOf_append_right _ (List.isPrefixOf_iff_prefix.mpr ⟨[], by simp⟩)

/-- Shape of the current frontmatter lines under the fold invariant. -/
theorem inv_shape {e : LetterboxdEntry} {P L0 L : List Str}
    (hinv : ProcessedInv e P L0 L) :
    ∀ i ln, L.get? i = some ln → ∃ ln0, L0.get? i = some ln0 ∧
      (ln = ln0 ∨ ∃ tl' ∈ P, activeLine tl' = true ∧
        (lineKey (jsTrim tl') ++ [':']).isPrefixOf ln0 = true ∧
        ln = stepResult e tl' ln0) := by
  intro i ln hln
  have hi : i < L.length := by
    rcases List.get?_eq_some.mp hln with ⟨hlt, _⟩
    exact hlt
  have hi0 : i < L0.length := hinv.1 ▸ hi
  have hln0 : L0.get? i = some (L0.get ⟨i, hi0⟩) := List.get?_eq_get hi0
  rcases hinv.2 i _ hln0 with ⟨_, hsame⟩ | ⟨tl', htl', hact, hfi, hstep⟩
  · rw [hln] at hsame
    injection hsame with hh
    exact ⟨_, hln0, Or.inl hh⟩
  · rw [hln] at hstep
    injection hstep with hh
    obtain ⟨lnj, hlnj, hpj⟩ := firstPfxIdx_get hfi
    rw [hln0] at hlnj
    injection hlnj with hje
    subst hje
    exact ⟨_, hln0, Or.inr ⟨tl', htl', hact, hpj, hh⟩⟩

/-- Under the invariant, every current line is newline- and
carriage-return-free. -/
theorem inv_no_term {e : LetterboxdEntry} {tlines : List Str} {fm0 : Str} {P L : List Str}
    (hinv : ProcessedInv e P (splitNl fm0) L) (hP : ∀ tl ∈ P, tl ∈ tlines)
    (HT1 : ∀ l ∈ tlines, NiceLine e l) (HF1 : '\r' ∉ fm0) :
    ∀ ln ∈ L, '\n' ∉ ln ∧ '\r' ∉ ln := by
  intro ln hln
  obtain ⟨i, hi⟩ := List.get?_of_mem hln
  obtain ⟨ln0, hln0, hsh⟩ := inv_shape hinv i ln hi
  have h0nl : '\n' ∉ ln0 := splitNl_mem_no_nl (List.get?_mem hln0)
  have h0cr : '\r' ∉ ln0 := fun hc => HF1 (splitNl_mem_subset (List.get?_mem hln0) _ hc)
  rcases hsh with rfl | ⟨tl', htl', hact, _, rfl⟩
  · exact ⟨h0nl, h0cr⟩
  · rcases stepResult_cases e tl' ln0 with hr | hid
    · rw [hr]
      obtain ⟨_, _, _, _, _, hrnl, hrcr, _, _⟩ := HT1 tl' (hP tl' htl') hact
      exact ⟨hrnl, hrcr⟩
    · rw [hid]
      exact ⟨h0nl, h0cr⟩

/-- Under the invariant, per-index key-prefix status never changes. -/
theorem inv_match_congr {e : LetterboxdEntry} {tlines : List Str} {fm0 : Str} {P L : List Str}
    (hinv : ProcessedInv e P (splitNl fm0) L) (hP : ∀ tl ∈ P, tl ∈ tlines)
    (HT1 : ∀ l ∈ tlines, NiceLine e l) :
    ∀ i l l0, L.get? i = some l → (splitNl fm0).get? i = some l0 →
      ∀ k ∈ templKeys tlines, (k ++ [':']).isPrefixOf l = (k ++ [':']).isPrefixOf l0 := by
  intro i l l0 hl hl0 k hk
  obtain ⟨ln0, hln0, hsh⟩ := inv_shape hinv i l hl
  have he : l0 = ln0 := by
    rw [hln0] at hl0
    injection hl0 with hx
    exact hx.symm
  rw [he]
  rcases hsh with heq | ⟨tl', htl', hact, hpj, heq⟩
  · rw [heq]
  · rw [heq]
    rcases stepResult_cases e tl' ln0 with hr | hid
    · rw [hr]
      have hrp := rendered_line_shape hact (HT1 tl' (hP tl' htl'))
      have hkc : ':' ∉ k := templKeys_colon_free hk
      have hkc' : ':' ∉ lineKey (jsTrim tl') := colon_not_mem_lineKey _
      by_cases hkk : k = lineKey (jsTrim tl')
      · rw [hkk, hrp, hpj]
      · have hleft : (k ++ [':']).isPrefixOf (renderTemplate (jsTrim tl') e) = false := by
          cases hc : (k ++ [':']).isPrefixOf (renderTemplate (jsTrim tl') e)
          · rfl
          · exact absurd (key_prefix_unique hkc hkc' hc hrp) hkk
        have hright : (k ++ [':']).isPrefixOf ln0 = false := by
          cases hc : (k ++ [':']).isPrefixOf ln0
          · rfl
          · exact absurd (key_prefix_unique hkc hkc' hc hpj) hkk
        rw [hleft, hright]
    · rw [hid]

/-- Under the invariant, key-matched lines keep non-whitespace values. -/
theorem inv_val_nonws {e : LetterboxdEntry} {tlines : List Str} {fm0 : Str} {P L : List Str}
    (hinv : ProcessedInv e P (splitNl fm0) L) (hP : ∀ tl ∈ P, tl ∈ tlines)
    (HT1 : ∀ l ∈ tlines, NiceLine e l)
    (HF2 : ∀ ln ∈ splitNl fm0, ∀ k ∈ templKeys tlines,
      (k ++ [':']).isPrefixOf ln → (ln.drop (k.length + 1)).any (fun c => ¬ isWsChar c) = true) :
    ∀ ln ∈ L, ∀ k ∈ templKeys tlines, (k ++ [':']).isPrefixOf ln = true →
      (ln.drop (k.length + 1)).any (fun c => ¬ isWsChar c) = true := by
  intro ln hln k hk hpfx
  obtain ⟨i, hi⟩ := List.get?_of_mem hln
  obtain ⟨ln0, hln0, hsh⟩ := inv_shape hinv i ln hi
  rcases hsh with heq | ⟨tl', htl', hact, hpj, heq⟩
  · rw [heq] at hpfx ⊢
    exact HF2 ln0 (List.get?_mem hln0) k hk hpfx
  · rw [heq] at hpfx ⊢
    rcases stepResult_cases e tl' ln0 with hr | hid
    · rw [hr] at hpfx ⊢
      have hrp := rendered_line_shape hact (HT1 tl' (hP tl' htl'))
      have hkk : k = lineKey (jsTrim tl') :=
        key_prefix_unique (templKeys_colon_free hk) (colon_not_mem_lineKey _) hpfx hrp
      subst hkk
      obtain ⟨_, _, _, _, _, _, _, _, hval⟩ := HT1 tl' (hP tl' htl') hact
      exact hval
    · rw [hid] at hpfx ⊢
      exact HF2 ln0 (List.get?_mem hln0) k hk hpfx

/-- Under the invariant, `firstPfxIdx` of any processed key is unchanged. -/
theorem inv_firstPfxIdx {e : LetterboxdEntry} {tlines : List Str} {fm0 : Str} {P L : List Str}
    (hinv : ProcessedInv e P (splitNl fm0) L) (hP : ∀ tl ∈ P, tl ∈ tlines)
    (HT1 : ∀ l ∈ tlines, NiceLine e l) :
    ∀ k ∈ templKeys tlines, firstPfxIdx k L = firstPfxIdx k (splitNl fm0) := by
  intro k hk
  exact firstPfxIdx_congr hinv.1
    (fun i l1 l2 h1 h2 => inv_match_congr hinv hP HT1 i l1 l2 h1 h2 k hk)

/-- `get?` after `set` at a different index. -/
theorem get?_set_ne' {α : Type} (l : List α) (i j : Nat) (x : α) (h : i ≠ j) :
    (l.set i x).get? j = l.get? j := by
  rw [List.get?_eq_getElem?, List.get?_eq_getElem?, List.getElem?_set_ne h]

/-- `get?` after `set` at the same index. -/
theorem get?_set_self' {α : Type} (l : List α) (i : Nat) (x : α) (h : i < l.length) :
    (l.set i x).get? i = some x := by
  rw [List.get?_eq_getElem?, List.getElem?_set_eq_of_lt x h]

/-- `templKeys` distributes over append. -/
theorem templKeys_append (X Y : List Str) :
    templKeys (X ++ Y) = templKeys X ++ templKeys Y := by
  simp [templKeys, List.filter_append]

/-- One step of the merge fold preserves the loop invariant. -/
theorem merge_step {e : LetterboxdEntry} {tlines P R : List Str} {fm0 : Str} {L : List Str}
    (HT : NiceTemplate e tlines) (HTnl : ∀ l ∈ tlines, '\n' ∉ l)
    (HF : NiceFm (templKeys tlines) fm0)
    {tl : Str} (hsplit : tlines = P ++ tl :: R)
    (hinv : ProcessedInv e P (splitNl fm0) L) :
    ∃ L', mergeLine e (joinNl L) tl = joinNl L' ∧
      ProcessedInv e (P ++ [tl]) (splitNl fm0) L' := by
  have hP : ∀ l ∈ P, l ∈ tlines := by
    rw [hsplit]
    exact fun l hl => List.mem_append_left _ hl
  have htl : tl ∈ tlines := by
    rw [hsplit]
    simp
  cases hact : activeLine tl with
  | false =>
    refine ⟨L, mergeLine_inactive hact, hinv.1, ?_⟩
    intro i ln0 h0
    rcases hinv.2 i ln0 h0 with ⟨hno, hkeep⟩ | ⟨tl', htl', h1, h2, h3⟩
    · left
      refine ⟨?_, hkeep⟩
      intro tl'' htl''
      rcases List.mem_append.mp htl'' with hmem | hmem
      · exact hno tl'' hmem
      · rw [List.mem_singleton] at hmem
        subst hmem
        rintro ⟨ha, _⟩
        rw [hact] at ha
        cases ha
    · exact Or.inr ⟨tl', List.mem_append_left _ htl', h1, h2, h3⟩
  | true =>
    have hk : lineKey (jsTrim tl) ∈ templKeys tlines := lineKey_mem_templKeys htl hact
    have hknl : '\n' ∉ lineKey (jsTrim tl) := nl_not_mem_lineKey (HTnl tl htl)
    have hLnl : ∀ ln ∈ L, '\n' ∉ ln := fun ln h => (inv_no_term hinv hP HT.1 HF.1 ln h).1
    have hLcr : ∀ ln ∈ L, '\r' ∉ ln := fun ln h => (inv_no_term hinv hP HT.1 HF.1 ln h).2
    have hLval : ∀ ln ∈ L, (lineKey (jsTrim tl) ++ [':']).isPrefixOf ln = true →
        (ln.drop ((lineKey (jsTrim tl)).length + 1)).any (fun c => ¬ isWsChar c) = true :=
      fun ln h hp => inv_val_nonws hinv hP HT.1 HF.2 ln h _ hk hp
    have hfix : firstPfxIdx (lineKey (jsTrim tl)) L
        = firstPfxIdx (lineKey (jsTrim tl)) (splitNl fm0) :=
      inv_firstPfxIdx hinv hP HT.1 _ hk
    obtain ⟨v, hfv⟩ := (activeLine_true_iff hact).2.2
    cases hf0 : firstPfxIdx (lineKey (jsTrim tl)) (splitNl fm0) with
    | none =>
      have hmk : matchKey (lineKey (jsTrim tl)) (joinNl L) = none :=
        matchKey_join_none hknl hLnl hLcr (hfix.trans hf0)
      refine ⟨L, mergeLine_active_nomatch hact hmk, hinv.1, ?_⟩
      intro i ln0 h0
      rcases hinv.2 i ln0 h0 with ⟨hno, hkeep⟩ | ⟨tl', htl', h1, h2, h3⟩
      · left
        refine ⟨?_, hkeep⟩
        intro tl'' htl''
        rcases List.mem_append.mp htl'' with hmem | hmem
        · exact hno tl'' hmem
        · rw [List.mem_singleton] at hmem
          subst hmem
          rintro ⟨_, hfi⟩
          rw [hf0] at hfi
          cases hfi
      · exact Or.inr ⟨tl', List.mem_append_left _ htl', h1, h2, h3⟩
    | some j =>
      have hfj : firstPfxIdx (lineKey (jsTrim tl)) L = some j := by rw [hfix, hf0]
      obtain ⟨b, w, a, lnj, hget, hpj, hmk, hrec⟩ :=
        matchKey_join_some hknl hLnl hLcr hLval hfj
      have hjlen : j < L.length := by
        rcases List.get?_eq_some.mp hget with ⟨hlt, _⟩
        exact hlt
      have hjlen0 : j < (splitNl fm0).length := hinv.1 ▸ hjlen
      have hj0 : (splitNl fm0).get? j = some ((splitNl fm0).get ⟨j, hjlen0⟩) :=
        List.get?_eq_get hjlen0
      have hpj0 : (lineKey (jsTrim tl) ++ [':']).isPrefixOf
          ((splitNl fm0).get ⟨j, hjlen0⟩) = true := by
        obtain ⟨lny, hlny, hpy⟩ := firstPfxIdx_get hf0
        rw [hj0] at hlny
        injection hlny with he
        rw [he]
        exact hpy
      have hlnj0 : lnj = (splitNl fm0).get ⟨j, hjlen0⟩ := by
        rcases hinv.2 j _ hj0 with ⟨hno, hkeep⟩ | ⟨tl', htl', hact', hfi', hstep'⟩
        · rw [hget] at hkeep
          injection hkeep
        · exfalso
          obtain ⟨lnx, hlnx, hpx⟩ := firstPfxIdx_get hfi'
          rw [hj0] at hlnx
          injection hlnx with hex
          have hkk : lineKey (jsTrim tl') = lineKey (jsTrim tl) :=
            key_prefix_unique (colon_not_mem_lineKey _) (colon_not_mem_lineKey _)
              (hex ▸ hpx) hpj0
          have hmem1 : lineKey (jsTrim tl) ∈ templKeys P := by
            rw [← hkk]
            exact lineKey_mem_templKeys htl' hact'
          have hmem2 : lineKey (jsTrim tl) ∈ templKeys (tl :: R) :=
            lineKey_mem_templKeys (by simp) hact
          have hnodup := HT.2
          rw [hsplit, templKeys_append] at hnodup
          exact (List.nodup_append.mp hnodup).2.2 hmem1 hmem2
      have hgetD : (findTemplateVarName (jsTrim tl)).getD [] = v := by
        rw [hfv]
        rfl
      have hml := mergeLine_active_match e hact hfv hmk
      by_cases hsu : shouldUpdateValue v (newValueOf (renderTemplate (jsTrim tl) e))
          (lineCapture (lineKey (jsTrim tl)) lnj) = true
      · obtain ⟨_, _, _, _, _, _, _, hdol, _⟩ := HT.1 tl htl hact
        have hstep : stepResult e tl ((splitNl fm0).get ⟨j, hjlen0⟩)
            = renderTemplate (jsTrim tl) e := by
          rw [stepResult_eq, hgetD, ← hlnj0]
          rw [if_pos hsu]
        refine ⟨L.set j (renderTemplate (jsTrim tl) e), ?_, ?_⟩
        · rw [hml, if_pos hsu, expandRepl_no_dollar _ _ _ _ hdol]
          exact hrec (renderTemplate (jsTrim tl) e)
        · refine ⟨by rw [List.length_set]; exact hinv.1, ?_⟩
          intro i ln0 h0
          by_cases hij : i = j
          · subst hij
            right
            refine ⟨tl, List.mem_append_right _ (by simp), hact, hf0, ?_⟩
            rw [hj0] at h0
            injection h0 with he0
            rw [← he0, hstep]
            exact get?_set_self' L i _ hjlen
          · rcases hinv.2 i ln0 h0 with ⟨hno, hkeep⟩ | ⟨tl', htl', h1, h2, h3⟩
            · left
              refine ⟨?_, ?_⟩
              · intro tl'' htl''
                rcases List.mem_append.mp htl'' with hmem | hmem
                · exact hno tl'' hmem
                · rw [List.mem_singleton] at hmem
                  subst hmem
                  rintro ⟨_, hfi⟩
                  rw [hf0] at hfi
                  injection hfi with he
                  exact hij he.symm
              · rw [get?_set_ne' L j i _ (fun he => hij he.symm)]
                exact hkeep
            · right
              refine ⟨tl', List.mem_append_left _ htl', h1, h2, ?_⟩
              rw [get?_set_ne' L j i _ (fun he => hij he.symm)]
              exact h3
      · refine ⟨L, by rw [hml, if_neg hsu], hinv.1, ?_⟩
        intro i ln0 h0
        by_cases hij : i = j
        · subst hij
          right
          refine ⟨tl, List.mem_append_right _ (by simp), hact, hf0, ?_⟩
          have hstep : stepResult e tl ln0 = ln0 := by
            rw [hj0] at h0
            injection h0 with he0
            rw [stepResult_eq, hgetD, ← he0, ← hlnj0]
            rw [if_neg hsu]
          rw [hstep]
          rw [hget, hlnj0]
          rw [hj0] at h0
          injection h0 with he0
          rw [he0]
        · rcases hinv.2 i ln0 h0 with ⟨hno, hkeep⟩ | ⟨tl', htl', h1, h2, h3⟩
          · left
            refine ⟨?_, hkeep⟩
            intro tl'' htl''
            rcases List.mem_append.mp htl'' with hmem | hmem
            · exact hno tl'' hmem
            · rw [List.mem_singleton] at hmem
              subst hmem
              rintro ⟨_, hfi⟩
              rw [hf0] at hfi
              injection hfi with he
              exact hij he.symm
          · exact Or.inr ⟨tl', List.mem_append_left _ htl', h1, h2, h3⟩

/-- The empty-prefix invariant holds initially. -/
theorem processedInv_init (e : LetterboxdEntry) (L0 : List Str) : ProcessedInv e [] L0 L0 :=
  ⟨rfl, fun _ _ h0 => Or.inl ⟨fun tl htl => absurd htl (List.not_mem_nil tl), h0⟩⟩

/-- The merge fold carries the invariant through the remaining lines. -/
theorem mergeFm_fold {e : LetterboxdEntry} {tlines : List Str} {fm0 : Str}
    (HT : NiceTemplate e tlines) (HTnl : ∀ l ∈ tlines, '\n' ∉ l)
    (HF : NiceFm (templKeys tlines) fm0) :
    ∀ (R P L : List Str), tlines = P ++ R → ProcessedInv e P (splitNl fm0) L →
      ∃ L', mergeFm e R (joinNl L) = joinNl L' ∧
        ProcessedInv e tlines (splitNl fm0) L' := by
  intro R
  induction R with
  | nil =>
    intro P L hPR hinv
    rw [List.append_nil] at hPR
    rw [hPR]
    exact ⟨L, rfl, hinv⟩
  | cons tl R' ih =>
    intro P L hPR hinv
    obtain ⟨L1, hml, hinv1⟩ := merge_step HT HTnl HF hPR hinv
    have hfold : mergeFm e (tl :: R') (joinNl L)
        = mergeFm e R' (mergeLine e (joinNl L) tl) := rfl
    rw [hfold, hml]
    exact ih (P ++ [tl]) L1 (by rw [hPR]; simp) hinv1

/-- Master characterization: the merge rewrites the frontmatter line-wise. -/
theorem mergeFm_master {e : LetterboxdEntry} {tlines : List Str} {fm0 : Str}
    (HT : NiceTemplate e tlines) (HTnl : ∀ l ∈ tlines, '\n' ∉ l)
    (HF : NiceFm (templKeys tlines) fm0) :
    ∃ L1, mergeFm e tlines fm0 = joinNl L1 ∧
      ProcessedInv e tlines (splitNl fm0) L1 := by
  obtain ⟨L1, hm, hinv⟩ :=
    mergeFm_fold HT HTnl HF tlines [] (splitNl fm0) rfl
      (processedInv_init e (splitNl fm0))
  rw [joinNl_splitNl] at hm
  exact ⟨L1, hm, hinv⟩

/-- After a full merge pass, every template line is a no-op on the result. -/
theorem mergeLine_noop_after {e : LetterboxdEntry} {tlines : List Str} {fm0 : Str}
    {L1 : List Str}
    (HT : NiceTemplate e tlines) (HTnl : ∀ l ∈ tlines, '\n' ∉ l)
    (HF : NiceFm (templKeys tlines) fm0)
    (hinv : ProcessedInv e tlines (splitNl fm0) L1) :
    ∀ tl ∈ tlines, mergeLine e (joinNl L1) tl = joinNl L1 := by
  intro tl htl
  have hP : ∀ l ∈ tlines, l ∈ tlines := fun l h => h
  cases hact : activeLine tl with
  | false => exact mergeLine_inactive hact
  | true =>
    have hk : lineKey (jsTrim tl) ∈ templKeys tlines := lineKey_mem_templKeys htl hact
    have hknl : '\n' ∉ lineKey (jsTrim tl) := nl_not_mem_lineKey (HTnl tl htl)
    have hLnl : ∀ ln ∈ L1, '\n' ∉ ln := fun ln h => (inv_no_term hinv hP HT.1 HF.1 ln h).1
    have hLcr : ∀ ln ∈ L1, '\r' ∉ ln := fun ln h => (inv_no_term hinv hP HT.1 HF.1 ln h).2
    have hLval : ∀ ln ∈ L1, (lineKey (jsTrim tl) ++ [':']).isPrefixOf ln = true →
        (ln.drop ((lineKey (jsTrim tl)).length + 1)).any (fun c => ¬ isWsChar c) = true :=
      fun ln h hp => inv_val_nonws hinv hP HT.1 HF.2 ln h _ hk hp
    have hfix : firstPfxIdx (lineKey (jsTrim tl)) L1
        = firstPfxIdx (lineKey (jsTrim tl)) (splitNl fm0) :=
      inv_firstPfxIdx hinv hP HT.1 _ hk
    obtain ⟨v, hfv⟩ := (activeLine_true_iff hact).2.2
    have hgetD : (findTemplateVarName (jsTrim tl)).getD [] = v := by
      rw [hfv]
      rfl
    cases hf0 : firstPfxIdx (lineKey (jsTrim tl)) (splitNl fm0) with
    | none =>
      exact mergeLine_active_nomatch hact
        (matchKey_join_none hknl hLnl hLcr (hfix.trans hf0))
    | some j =>
      have hfj : firstPfxIdx (lineKey (jsTrim tl)) L1 = some j := by rw [hfix, hf0]
      obtain ⟨b, w, a, lnj, hget, hpj, hmk, hrec⟩ :=
        matchKey_join_some hknl hLnl hLcr hLval hfj
      have hjlen : j < L1.length := by
        rcases List.get?_eq_some.mp hget with ⟨hlt, _⟩
        exact hlt
      have hjlen0 : j < (splitNl fm0).length := hinv.1 ▸ hjlen
      have hj0 : (splitNl fm0).get? j = some ((splitNl fm0).get ⟨j, hjlen0⟩) :=
        List.get?_eq_get hjlen0
      have hpj0 : (lineKey (jsTrim tl) ++ [':']).isPrefixOf
          ((splitNl fm0).get ⟨j, hjlen0⟩) = true := by
        obtain ⟨lny, hlny, hpy⟩ := firstPfxIdx_get hf0
        rw [hj0] at hlny
        injection hlny with he
        rw [he]
        exact hpy
      have hstep : lnj = stepResult e tl ((splitNl fm0).get ⟨j, hjlen0⟩) := by
        rcases hinv.2 j _ hj0 with ⟨hno, _⟩ | ⟨tl', htl', hact', hfi', hstep'⟩
        · exact absurd ⟨hact, hf0⟩ (hno tl htl)
        · obtain ⟨lnx, hlnx, hpx⟩ := firstPfxIdx_get hfi'
          rw [hj0] at hlnx
          injection hlnx with hex
          have hkk : lineKey (jsTrim tl') = lineKey (jsTrim tl) :=
            key_prefix_unique (colon_not_mem_lineKey _) (colon_not_mem_lineKey _)
              (hex ▸ hpx) hpj0
          have htleq : tl' = tl := by
            have hm1 : tl' ∈ tlines.filter (fun l => activeLine l) :=
              List.mem_filter.mpr ⟨htl', by simp [hact']⟩
            have hm2 : tl ∈ tlines.filter (fun l => activeLine l) :=
              List.mem_filter.mpr ⟨htl, by simp [hact]⟩
            exact List.inj_on_of_nodup_map HT.2 hm1 hm2 hkk
          subst htleq
          rw [hget] at hstep'
          injection hstep'
      have hml := mergeLine_active_match e hact hfv hmk
      by_cases hsu : shouldUpdateValue v (newValueOf (renderTemplate (jsTrim tl) e))
          (lineCapture (lineKey (jsTrim tl)) lnj) = true
      · obtain ⟨_, _, _, _, _, _, _, hdol, _⟩ := HT.1 tl htl hact
        have hlnjr : lnj = renderTemplate (jsTrim tl) e := by
          rw [stepResult_eq, hgetD] at hstep
          rcases hc : shouldUpdateValue v (newValueOf (renderTemplate (jsTrim tl) e))
              (lineCapture (lineKey (jsTrim tl)) ((splitNl fm0).get ⟨j, hjlen0⟩)) with _ | _
          · rw [hc] at hstep
            rw [if_neg (by simp)] at hstep
            rw [hstep] at hsu
            rw [hc] at hsu
            cases hsu
          · rw [hc] at hstep
            rw [if_pos rfl] at hstep
            exact hstep
        rw [hml, if_pos hsu, expandRepl_no_dollar _ _ _ _ hdol, ← hlnjr]
        rw [hrec lnj, set_of_get hget]
      · rw [hml, if_neg hsu]

/-- Folding no-op merge lines leaves the text unchanged. -/
theorem mergeFm_noop {e : LetterboxdEntry} : ∀ {tlines : List Str} {g : Str},
    (∀ tl ∈ tlines, mergeLine e g tl = g) → mergeFm e tlines g = g := by
  intro tlines
  induction tlines with
  | nil => intro g _; rfl
  | cons tl rest ih =>
    intro g h
    show mergeFm e rest (mergeLine e g tl) = g
    rw [h tl (by simp)]
    exact ih (fun t ht => h t (by simp [ht]))

/-- The merge core is idempotent on well-behaved inputs. -/
theorem mergeFm_idem {e : LetterboxdEntry} {tlines : List Str} {fm0 : Str}
    (HT : NiceTemplate e tlines) (HTnl : ∀ l ∈ tlines, '\n' ∉ l)
    (HF : NiceFm (templKeys tlines) fm0) :
    mergeFm e tlines (mergeFm e tlines fm0) = mergeFm e tlines fm0 := by
  obtain ⟨L1, hm, hinv⟩ := mergeFm_master HT HTnl HF
  rw [hm]
  exact mergeFm_noop (mergeLine_noop_after HT HTnl HF hinv)

/-- The delimiter pattern needs a newline first. -/
theorem nlDashes_not_prefix_of_ne {c : Char} {cs : Str} (hc : c ≠ '\n') :
    ('\n' :: str "---").isPrefixOf (c :: cs) = false := by
  cases hp : ('\n' :: str "---").isPrefixOf (c :: cs)
  · rfl
  · exfalso
    obtain ⟨t, hteq⟩ := List.isPrefixOf_iff_prefix.mp hp
    rw [show ('\n' :: str "---") ++ t = '\n' :: (str "---" ++ t) from rfl] at hteq
    injection hteq with h1 _
    exact hc h1.symm

/-- `okND` steps over a non-newline character. -/
theorem okND_cons_ne {c : Char} {cs : Str} (hc : c ≠ '\n') :
    okND (c :: cs) = okND cs := by
  simp only [okND, nlDashes_not_prefix_of_ne hc]
  simp

/-- `okND` at a newline checks the delimiter. -/
theorem okND_cons_nl {rest : Str} :
    okND ('\n' :: rest) = (!(str "---").isPrefixOf rest && okND rest) := by
  simp only [okND]
  have hun : ('\n' :: str "---").isPrefixOf ('\n' :: rest)
      = (str "---").isPrefixOf rest := by
    simp [List.isPrefixOf]
  rw [hun]
  cases (str "---").isPrefixOf rest <;> simp

/-- Newline-free strings trivially satisfy `okND`. -/
theorem okND_no_nl : ∀ {s : Str}, '\n' ∉ s → okND s = true := by
  intro s
  induction s with
  | nil => intro _; rfl
  | cons c cs ih =>
    intro h
    rw [okND_cons_ne (fun hcc => h (by simp [hcc]))]
    exact ih (fun hm => h (by simp [hm]))

/-- `okND` over an appended newline-free head. -/
theorem okND_append {tail : Str} (ht : okND tail = true) : ∀ {ln : Str}, '\n' ∉ ln →
    okND (ln ++ tail) = true := by
  intro ln
  induction ln with
  | nil => intro _; simpa using ht
  | cons c cs ih =>
    intro h
    rw [List.cons_append, okND_cons_ne (fun hcc => h (by simp [hcc]))]
    exact ih (fun hm => h (by simp [hm]))

/-- Joined lines are delimiter-free when no later line starts with `---`. -/
theorem okND_join : ∀ {L : List Str}, (∀ ln ∈ L, '\n' ∉ ln) →
    (∀ i ln, L.get? (i + 1) = some ln → (str "---").isPrefixOf ln = false) →
    okND (joinNl L) = true := by
  intro L
  induction L with
  | nil => intro _ _; rfl
  | cons ln L' ih =>
    intro hnl hln
    cases L' with
    | nil => exact okND_no_nl (hnl ln (by simp))
    | cons l2 t =>
      rw [joinNl_cons (by simp)]
      apply okND_append ?_ (hnl ln (by simp))
      rw [okND_cons_nl, Bool.and_eq_true]
      have h2 : (str "---").isPrefixOf l2 = false := hln 0 l2 rfl
      constructor
      · cases t with
        | nil =>
          simp [show joinNl [l2] = l2 from rfl, h2]
        | cons l3 t' =>
          rw [joinNl_cons (by simp)]
          rw [isPrefixOf_append_nl_false (joinNl (l3 :: t')) (by decide) h2]
          rfl
      · exact ih (fun l h => hnl l (by simp [h])) (fun i l h => hln (i + 1) l h)

/-- The first line produced by `splitNl` is a prefix of the string. -/
theorem splitNl_get0_prefix : ∀ {s ln : Str}, (splitNl s).get? 0 = some ln → ln <+: s := by
  intro s
  induction s with
  | nil =>
    intro ln h
    injection h with h
    rw [← h]
  | cons c cs ih =>
    intro ln h
    simp only [splitNl] at h
    split at h
    · injection h with h
      rw [← h]
      exact List.nil_prefix
    · cases hsp : splitNl cs with
      | nil => exact absurd hsp (splitNl_ne_nil cs)
      | cons l ls =>
        rw [hsp] at h
        injection h with h
        have hl : l <+: cs := ih (by rw [hsp]; rfl)
        obtain ⟨t, ht⟩ := hl
        rw [← h]
        exact ⟨t, by rw [← ht]; rfl⟩

/-- Lines after the first of a delimiter-free string never start with
`---`. -/
theorem okND_lines : ∀ {s : Str}, okND s = true →
    ∀ i ln, (splitNl s).get? (i + 1) = some ln → (str "---").isPrefixOf ln = false := by
  intro s
  induction s with
  | nil =>
    intro _ i ln h
    cases i <;> simp [splitNl] at h
  | cons c cs ih =>
    intro hok i ln h
    simp only [okND, Bool.and_eq_true, decide_eq_true_eq] at hok
    obtain ⟨hpre, hrec⟩ := hok
    simp only [splitNl] at h
    by_cases hc : c = '\n'
    · rw [if_pos hc] at h
      have hdash : (str "---").isPrefixOf cs = false := by
        cases hd : (str "---").isPrefixOf cs
        · rfl
        · exfalso
          apply hpre
          subst hc
          show ('\n' :: str "---").isPrefixOf ('\n' :: cs) = true
          simp [List.isPrefixOf, hd]
      cases i with
      | zero =>
        have hln : ln <+: cs := splitNl_get0_prefix h
        cases hd : (str "---").isPrefixOf ln
        · rfl
        · exfalso
          have hpc : (str "---") <+: cs := (List.isPrefixOf_iff_prefix.mp hd).trans hln
          rw [List.isPrefixOf_iff_prefix.mpr hpc] at hdash
          cases hdash
      | succ i' => exact ih hrec i' ln h
    · rw [if_neg hc] at h
      cases hsp : splitNl cs with
      | nil => exact absurd hsp (splitNl_ne_nil cs)
      | cons l ls =>
        rw [hsp] at h
        exact ih hrec i ln (by rw [hsp]; exact h)

/-- A `---`-prefixed string starts with a dash. -/
theorem dashes_prefix_head {ln : Str} (h : (str "---").isPrefixOf ln = true) :
    ln.head? = some '-' := by
  obtain ⟨t, ht⟩ := List.isPrefixOf_iff_prefix.mp h
  rw [← ht]
  rfl

/-- Head of an append with a non-empty first part. -/
theorem head?_append_of_ne_nil {k rest : Str} (h : k ≠ []) :
    (k ++ rest).head? = k.head? := by
  cases k with
  | nil => exact absurd rfl h
  | cons a t => rfl

/-- The merged frontmatter stays delimiter-free. -/
theorem merged_okND {e : LetterboxdEntry} {tlines : List Str} {fm0 : Str} {L1 : List Str}
    (HT : NiceTemplate e tlines) (HF : NiceFm (templKeys tlines) fm0)
    (hok0 : okND fm0 = true)
    (hinv : ProcessedInv e tlines (splitNl fm0) L1) :
    okND (joinNl L1) = true := by
  apply okND_join
  · intro ln h
    exact (inv_no_term hinv (fun l hl => hl) HT.1 HF.1 ln h).1
  · intro i ln h
    obtain ⟨ln0, hln0, hsh⟩ := inv_shape hinv (i + 1) ln h
    have h0d : (str "---").isPrefixOf ln0 = false := okND_lines hok0 i ln0 hln0
    rcases hsh with heq | ⟨tl', htl', hact', hpj', heq⟩
    · rw [heq]
      exact h0d
    · rw [heq]
      rcases stepResult_cases e tl' ln0 with hr | hid
      · rw [hr]
        obtain ⟨hkne, _, _, _, hdash, _, _, _, _⟩ := HT.1 tl' htl' hact'
        have hshape := rendered_line_shape hact' (HT.1 tl' htl')
        obtain ⟨t, ht⟩ := List.isPrefixOf_iff_prefix.mp hshape
        cases hd : (str "---").isPrefixOf (renderTemplate (jsTrim tl') e)
        · rfl
        · exfalso
          have hh := dashes_prefix_head hd
          rw [← ht, List.append_assoc, head?_append_of_ne_nil hkne] at hh
          exact hdash hh
      · rw [hid]
        exact h0d

/-- A template line that would not trigger a replacement is a no-op. -/
theorem mergeLine_no_update {e : LetterboxdEntry} {fm tl : Str}
    (h : lineWouldUpdate e fm tl = false) : mergeLine e fm tl = fm := by
  cases hact : activeLine tl with
  | false => exact mergeLine_inactive hact
  | true =>
    simp only [lineWouldUpdate, hact, Bool.true_and] at h
    obtain ⟨v, hfv⟩ := (activeLine_true_iff hact).2.2
    cases hmk : matchKey (lineKey (jsTrim tl)) fm with
    | none => exact mergeLine_active_nomatch hact hmk
    | some q =>
      obtain ⟨b, q2⟩ := q
      obtain ⟨w, q3⟩ := q2
      obtain ⟨cap, a⟩ := q3
      rw [hmk] at h
      have hsu : shouldUpdateValue ((findTemplateVarName (jsTrim tl)).getD [])
          (newValueOf (renderTemplate (jsTrim tl) e)) cap = false := h
      have hgetD : (findTemplateVarName (jsTrim tl)).getD [] = v := by
        rw [hfv]
        rfl
      rw [hgetD] at hsu
      rw [mergeLine_active_match e hact hfv hmk, if_neg (by simp [hsu])]

/-- C1 (corrected): merge is idempotent on well-behaved inputs — a template
whose processed lines have distinct literal keys and render to single
`key: value` lines with non-whitespace values, and a note frontmatter
without carriage returns whose template-keyed lines carry non-whitespace
values — and a merge in which no line triggers a replacement returns the
input content string unchanged. -/
theorem merge_idempotence_amended (content : Str) (e : LetterboxdEntry)
    (settings : LetterboxdSettings) (fm body tfm trest : Str)
    (hc : fmSplit content = some (fm, body))
    (ht : fmSplit settings.noteTemplate = some (tfm, trest)) :
    (NiceTemplate e (splitNl tfm) → NiceFm (templKeys (splitNl tfm)) fm →
      updateNoteFrontmatter (updateNoteFrontmatter content e settings) e settings
        = updateNoteFrontmatter content e settings) ∧
    ((∀ tl ∈ splitNl tfm, lineWouldUpdate e fm tl = false) →
      updateNoteFrontmatter content e settings = content) := by
  constructor
  · intro HT HF
    have HTnl : ∀ l ∈ splitNl tfm, '\n' ∉ l := fun l h => splitNl_mem_no_nl h
    obtain ⟨L1, hm, hinv⟩ := mergeFm_master HT HTnl HF
    have h1 : updateNoteFrontmatter content e settings
        = str "---\n" ++ mergeFm e (splitNl tfm) fm ++ '\n' :: str "---" ++ body :=
      update_eq hc ht
    have hok : okND (mergeFm e (splitNl tfm) fm) = true := by
      rw [hm]
      exact merged_okND HT HF (fmSplit_sound hc).2 hinv
    have h2 : fmSplit (updateNoteFrontmatter content e settings)
        = some (mergeFm e (splitNl tfm) fm, body) := by
      rw [h1]
      exact fmSplit_reassemble body hok
    have h3 : updateNoteFrontmatter (updateNoteFrontmatter content e settings) e settings
        = str "---\n" ++ mergeFm e (splitNl tfm) (mergeFm e (splitNl tfm) fm)
          ++ '\n' :: str "---" ++ body :=
      update_eq h2 ht
    rw [h3, h1, mergeFm_idem HT HTnl HF]
  · intro hnq
    have hmm : mergeFm e (splitNl tfm) fm = fm :=
      mergeFm_noop (fun tl htl => mergeLine_no_update (hnq tl htl))
    rw [update_eq hc ht, hmm]
    exact ((fmSplit_sound hc).1).symm

/-- Witness for C1 on a two-field template over a note with a pending-tags
sentinel and a stale date. -/
theorem merge_idempotence_amended_witness :
    updateNoteFrontmatter (updateNoteFrontmatter witC1Content entryA witC1Settings)
        entryA witC1Settings
      = updateNoteFrontmatter witC1Content entryA witC1Settings :=
  (merge_idempotence_amended witC1Content entryA witC1Settings
    (str "letterboxd_tags: _pending_csv_import\nwatched_date: 2020-05-05\nuser_line: kept")
    (str "\nUser body")
    (str "letterboxd_tags: \x7b\x7btags yaml=true\x7d\x7d\nwatched_date: \x7b\x7bwatchedDate\x7d\x7d")
    (str "\nBody")
    (by decide) (by decide)).1 (by decide) (by decide)

/-- C2 (corrected): on well-behaved inputs the merge result re-parses into
the merged frontmatter and the original body — the text after the closing
delimiter is unchanged. -/
theorem merge_body_preservation_amended (content : Str) (e : LetterboxdEntry)
    (settings : LetterboxdSettings) (fm body tfm trest : Str)
    (hc : fmSplit content = some (fm, body))
    (ht : fmSplit settings.noteTemplate = some (tfm, trest))
    (HT : NiceTemplate e (splitNl tfm)) (HF : NiceFm (templKeys (splitNl tfm)) fm) :
    fmSplit (updateNoteFrontmatter content e settings)
      = some (mergeFm e (splitNl tfm) fm, body) := by
  have HTnl : ∀ l ∈ splitNl tfm, '\n' ∉ l := fun l h => splitNl_mem_no_nl h
  obtain ⟨L1, hm, hinv⟩ := mergeFm_master HT HTnl HF
  have hok : okND (mergeFm e (splitNl tfm) fm) = true := by
    rw [hm]
    exact merged_okND HT HF (fmSplit_sound hc).2 hinv
  rw [update_eq hc ht]
  exact fmSplit_reassemble body hok

/-- Witness for C2 on the same two-field template fixture. -/
theorem merge_body_preservation_amended_witness :
    fmSplit (updateNoteFrontmatter witC1Content entryA witC1Settings)
      = some (mergeFm entryA
          (splitNl (str "letterboxd_tags: \x7b\x7btags yaml=true\x7d\x7d\nwatched_date: \x7b\x7bwatchedDate\x7d\x7d"))
          (str "letterboxd_tags: _pending_csv_import\nwatched_date: 2020-05-05\nuser_line: kept"),
        str "\nUser body") :=
  merge_body_preservation_amended witC1Content entryA witC1Settings
    (str "letterboxd_tags: _pending_csv_import\nwatched_date: 2020-05-05\nuser_line: kept")
    (str "\nUser body")
    (str "letterboxd_tags: \x7b\x7btags yaml=true\x7d\x7d\nwatched_date: \x7b\x7bwatchedDate\x7d\x7d")
    (str "\nBody")
    (by decide) (by decide) (by decide) (by decide)

/-- C3 (corrected): on well-behaved inputs, the note line matched by a
template line whose variable is immutable (`guid`, `tmdbId`, `posterUrl`)
survives the merge unchanged, and the body is preserved. -/
theorem merge_immutable_amended (content : Str) (e : LetterboxdEntry)
    (settings : LetterboxdSettings) (fm body tfm trest tl v ln : Str) (j : Nat)
    (hc : fmSplit content = some (fm, body))
    (ht : fmSplit settings.noteTemplate = some (tfm, trest))
    (HT : NiceTemplate e (splitNl tfm)) (HF : NiceFm (templKeys (splitNl tfm)) fm)
    (htl : tl ∈ splitNl tfm) (hact : activeLine tl = true)
    (hv : findTemplateVarName (jsTrim tl) = some v)
    (himm : IMMUTABLE_VARIABLES.contains v = true)
    (hj : firstPfxIdx (lineKey (jsTrim tl)) (splitNl fm) = some j)
    (hln : (splitNl fm).get? j = some ln) :
    ∃ fm', fmSplit (updateNoteFrontmatter content e settings) = some (fm', body) ∧
      (splitNl fm').get? j = some ln := by
  have HTnl : ∀ l ∈ splitNl tfm, '\n' ∉ l := fun l h => splitNl_mem_no_nl h
  obtain ⟨L1, hm, hinv⟩ := mergeFm_master HT HTnl HF
  have hok : okND (mergeFm e (splitNl tfm) fm) = true := by
    rw [hm]
    exact merged_okND HT HF (fmSplit_sound hc).2 hinv
  have h2 : fmSplit (updateNoteFrontmatter content e settings)
      = some (mergeFm e (splitNl tfm) fm, body) := by
    rw [update_eq hc ht]
    exact fmSplit_reassemble body hok
  refine ⟨mergeFm e (splitNl tfm) fm, h2, ?_⟩
  have hL1nl : ∀ l ∈ L1, '\n' ∉ l :=
    fun l h => (inv_no_term hinv (fun x hx => hx) HT.1 HF.1 l h).1
  have hL1ne : L1 ≠ [] := by
    intro hcon
    have hlen := hinv.1
    rw [hcon] at hlen
    exact splitNl_ne_nil fm (List.eq_nil_of_length_eq_zero hlen.symm)
  have hsp : splitNl (mergeFm e (splitNl tfm) fm) = L1 := by
    rw [hm]
    exact splitNl_joinNl hL1ne hL1nl
  rw [hsp]
  rcases hinv.2 j ln hln with ⟨_, hkeep⟩ | ⟨tl', htl', hact', hfi', hstep'⟩
  · exact hkeep
  · obtain ⟨lnx, hlnx, hpx⟩ := firstPfxIdx_get hj
    rw [hln] at hlnx
    injection hlnx with hex
    rw [← hex] at hpx
    obtain ⟨lny, hlny, hpy⟩ := firstPfxIdx_get hfi'
    rw [hln] at hlny
    injection hlny with hey
    rw [← hey] at hpy
    have hkk : lineKey (jsTrim tl') = lineKey (jsTrim tl) :=
      key_prefix_unique (colon_not_mem_lineKey _) (colon_not_mem_lineKey _) hpy hpx
    have htleq : tl' = tl := by
      have hm1 : tl' ∈ (splitNl tfm).filter (fun l => activeLine l) :=
        List.mem_filter.mpr ⟨htl', by simp [hact']⟩
      have hm2 : tl ∈ (splitNl tfm).filter (fun l => activeLine l) :=
        List.mem_filter.mpr ⟨htl, by simp [hact]⟩
      exact List.inj_on_of_nodup_map HT.2 hm1 hm2 hkk
    subst htleq
    rw [hstep']
    have hstepid : stepResult e tl' ln = ln := by
      rw [stepResult_eq]
      have hgetD : (findTemplateVarName (jsTrim tl')).getD [] = v := by
        rw [hv]
        rfl
      rw [hgetD]
      have hsu : shouldUpdateValue v (newValueOf (renderTemplate (jsTrim tl') e))
          (lineCapture (lineKey (jsTrim tl')) ln) = false := by
        simp only [shouldUpdateValue]
        rw [if_pos himm]
      rw [if_neg (by simp [hsu])]
    rw [hstepid]

/-- Witness for C3: a populated GUID line survives a merge whose record
carries a different GUID. -/
theorem merge_immutable_amended_witness :
    ∃ fm', fmSplit (updateNoteFrontmatter witC3Content entryA witC3Settings)
        = some (fm', str "\nB") ∧
      (splitNl fm').get? 0 = some (str "letterboxd_guid: abc") :=
  merge_immutable_amended witC3Content entryA witC3Settings
    (str "letterboxd_guid: abc\nwatched_date: 2020-05-05") (str "\nB")
    (str "letterboxd_guid: \x7b\x7bguid\x7d\x7d\nwatched_date: \x7b\x7bwatchedDate\x7d\x7d") (str "\n")
    (str "letterboxd_guid: \x7b\x7bguid\x7d\x7d") (str "guid") (str "letterboxd_guid: abc") 0
    (by decide) (by decide) (by decide) (by decide) (by decide) (by decide)
    (by decide) (by decide) (by decide) (by decide)

/-- C4 (corrected): on well-behaved inputs, a tags line whose existing
captured value contains the pending-import sentinel is always replaced by
the freshly rendered template line, even when the new value is empty. -/
theorem merge_sentinel_amended (content : Str) (e : LetterboxdEntry)
    (settings : LetterboxdSettings) (fm body tfm trest tl ln : Str) (j : Nat)
    (hc : fmSplit content = some (fm, body))
    (ht : fmSplit settings.noteTemplate = some (tfm, trest))
    (HT : NiceTemplate e (splitNl tfm)) (HF : NiceFm (templKeys (splitNl tfm)) fm)
    (htl : tl ∈ splitNl tfm) (hact : activeLine tl = true)
    (hv : findTemplateVarName (jsTrim tl) = some (str "tags"))
    (hj : firstPfxIdx (lineKey (jsTrim tl)) (splitNl fm) = some j)
    (hln : (splitNl fm).get? j = some ln)
    (hsent : containsSub TAGS_PENDING_FROM_RSS
      (lineCapture (lineKey (jsTrim tl)) ln) = true) :
    ∃ fm', fmSplit (updateNoteFrontmatter content e settings) = some (fm', body) ∧
      (splitNl fm').get? j = some (renderTemplate (jsTrim tl) e) := by
  have HTnl : ∀ l ∈ splitNl tfm, '\n' ∉ l := fun l h => splitNl_mem_no_nl h
  obtain ⟨L1, hm, hinv⟩ := mergeFm_master HT HTnl HF
  have hok : okND (mergeFm e (splitNl tfm) fm) = true := by
    rw [hm]
    exact merged_okND HT HF (fmSplit_sound hc).2 hinv
  have h2 : fmSplit (updateNoteFrontmatter content e settings)
      = some (mergeFm e (splitNl tfm) fm, body) := by
    rw [update_eq hc ht]
    exact fmSplit_reassemble body hok
  refine ⟨mergeFm e (splitNl tfm) fm, h2, ?_⟩
  have hL1nl : ∀ l ∈ L1, '\n' ∉ l :=
    fun l h => (inv_no_term hinv (fun x hx => hx) HT.1 HF.1 l h).1
  have hL1ne : L1 ≠ [] := by
    intro hcon
    have hlen := hinv.1
    rw [hcon] at hlen
    exact splitNl_ne_nil fm (List.eq_nil_of_length_eq_zero hlen.symm)
  have hsp : splitNl (mergeFm e (splitNl tfm) fm) = L1 := by
    rw [hm]
    exact splitNl_joinNl hL1ne hL1nl
  rw [hsp]
  rcases hinv.2 j ln hln with ⟨hno, _⟩ | ⟨tl', htl', hact', hfi', hstep'⟩
  · exact absurd ⟨hact, hj⟩ (hno tl htl)
  · obtain ⟨lnx, hlnx, hpx⟩ := firstPfxIdx_get hj
    rw [hln] at hlnx
    injection hlnx with hex
    rw [← hex] at hpx
    obtain ⟨lny, hlny, hpy⟩ := firstPfxIdx_get hfi'
    rw [hln] at hlny
    injection hlny with hey
    rw [← hey] at hpy
    have hkk : lineKey (jsTrim tl') = lineKey (jsTrim tl) :=
      key_prefix_unique (colon_not_mem_lineKey _) (colon_not_mem_lineKey _) hpy hpx
    have htleq : tl' = tl := by
      have hm1 : tl' ∈ (splitNl tfm).filter (fun l => activeLine l) :=
        List.mem_filter.mpr ⟨htl', by simp [hact']⟩
      have hm2 : tl ∈ (splitNl tfm).filter (fun l => activeLine l) :=
        List.mem_filter.mpr ⟨htl, by simp [hact]⟩
      exact List.inj_on_of_nodup_map HT.2 hm1 hm2 hkk
    subst htleq
    rw [hstep']
    have hstepr : stepResult e tl' ln = renderTemplate (jsTrim tl') e := by
      rw [stepResult_eq]
      have hgetD : (findTemplateVarName (jsTrim tl')).getD [] = str "tags" := by
        rw [hv]
        rfl
      rw [hgetD]
      have hsu : shouldUpdateValue (str "tags")
          (newValueOf (renderTemplate (jsTrim tl') e))
          (lineCapture (lineKey (jsTrim tl')) ln) = true := by
        simp only [shouldUpdateValue]
        rw [if_neg (by decide)]
        rw [if_pos (by rw [hsent]; simp)]
      rw [if_pos hsu]
    rw [hstepr]

/-- Witness for C4: a sentinel tags line is replaced even when the record
renders an empty tag list. -/
theorem merge_sentinel_amended_witness :
    ∃ fm', fmSplit (updateNoteFrontmatter witC4Content witC4Entry witC4Settings)
        = some (fm', str "\nB") ∧
      (splitNl fm').get? 0
        = some (renderTemplate (jsTrim (str "letterboxd_tags: \x7b\x7btags yaml=true\x7d\x7d"))
            witC4Entry) :=
  merge_sentinel_amended witC4Content witC4Entry witC4Settings
    (str "letterboxd_tags: _pending_csv_import") (str "\nB")
    (str "letterboxd_tags: \x7b\x7btags yaml=true\x7d\x7d") (str "\n")
    (str "letterboxd_tags: \x7b\x7btags yaml=true\x7d\x7d")
    (str "letterboxd_tags: _pending_csv_import") 0
    (by decide) (by decide) (by decide) (by decide) (by decide) (by decide)
    (by decide) (by decide) (by decide) (by decide)
